import Mathlib

/-!
Shallow embedding of the import-graph resolver and `/compile` handler of
`src/server.js` (sol-compile-api).

Modelling conventions:
* JS strings are `List Char` (Unicode code points).  Byte counts use UTF-8
  sizes, matching `Buffer.byteLength(_, "utf8")`.
* The WHATWG `URL` builtin is modelled by a simplified parser covering
  `scheme://host/path` for the `http`/`https` schemes, with host lowercasing
  and default-port stripping.  Percent-encoding, userinfo, and dot-segment
  normalisation of absolute URLs are not modelled; relative resolution does
  process `.` and `..` segments, as all code paths here depend on.
* `fetch` is modelled by an oracle `List Char → Option (List Char)` giving
  each URL's remote text, `none` meaning a failed retrieval.  Every network
  retrieval that is performed is recorded in a log, so fetch-count and
  host-allow-list properties can be stated about actual network accesses.
* The JS regexes are embedded as explicit backtracking matchers whose
  alternative order follows the JS greedy/backtracking priority.
-/

namespace SolCompile

/-- JS `\s` whitespace class, as used by the import regex and by
`String.prototype.trim`. -/
def isSpaceJS (c : Char) : Bool :=
  let n := c.toNat
  (9 ≤ n && n ≤ 13) || n == 32 || n == 160 || n == 5760 ||
    (8192 ≤ n && n ≤ 8202) || n == 8232 || n == 8233 || n == 8239 ||
    n == 8287 || n == 12288 || n == 65279

/-- The double-quote character. -/
def dquote : Char := Char.ofNat 34

/-- The single-quote character. -/
def squote : Char := Char.ofNat 39

/-- The backquote character. -/
def bquote : Char := Char.ofNat 96

/-- The character class `['"]` of the import regex. -/
def isQuoteChar (c : Char) : Bool := c == dquote || c == squote

/-- UTF-8 size of one code point, as `Buffer.byteLength` counts it. -/
def charUtf8 (c : Char) : Nat :=
  if c.toNat < 128 then 1
  else if c.toNat < 2048 then 2
  else if c.toNat < 65536 then 3
  else 4

/-- `Buffer.byteLength(s, "utf8")`. -/
def utf8Len (l : List Char) : Nat := (l.map charUtf8).sum

/-- Lookup in an association list, modelling `Map.get` / JS object lookup
with string keys. -/
def lookupAssoc {α : Type} : List (List Char × α) → List Char → Option α
  | [], _ => none
  | (k, v) :: t, key => if k = key then some v else lookupAssoc t key

/-- `Map.has`. -/
def hasKey {α : Type} (l : List (List Char × α)) (k : List Char) : Bool :=
  (lookupAssoc l k).isSome

/-- `Map.set`: replace the first binding of the key, or append a new one. -/
def setAssoc {α : Type} : List (List Char × α) → List Char → α → List (List Char × α)
  | [], key, v => [(key, v)]
  | (k, w) :: t, key, v =>
      if k = key then (key, v) :: t else (k, w) :: setAssoc t key v

/-- Update (in place) the value stored at a key, leaving the keys unchanged;
models mutation of the object a `Map` entry references. -/
def updateNode {α : Type} : List (List Char × α) → List Char → (α → α) → List (List Char × α)
  | [], _, _ => []
  | (k, v) :: t, key, f =>
      if k = key then (key, f v) :: t else (k, v) :: updateNode t key f

/-- JS `String.prototype.split` with a one-character separator. -/
def splitAll : List Char → Char → List (List Char)
  | [], _ => [[]]
  | a :: t, c =>
      if a = c then [] :: splitAll t c
      else
        match splitAll t c with
        | [] => [[a]]
        | h :: r => (a :: h) :: r

/-- Split at the first occurrence of a character: `some (before, after)`,
or `none` when the character does not occur. -/
def splitFirst : List Char → Char → Option (List Char × List Char)
  | [], _ => none
  | a :: t, c =>
      if a = c then some ([], t)
      else (splitFirst t c).map (fun p => (a :: p.1, p.2))

/-- First index at which `pat` occurs as a contiguous sublist of `s`
(the offset `String.prototype.indexOf` would report). -/
def findSubstr : List Char → List Char → Option Nat
  | s, pat =>
    if pat.isPrefixOf s then some 0
    else
      match s with
      | [] => none
      | _ :: t => (findSubstr t pat).map (· + 1)

/-- ES `GetSubstitution` for a plain-string search value (no capture
groups): in the replacement string, `$$` yields `$`, `$&` the matched
substring, a `$` followed by a backquote the portion before the match, `$`
followed by a single quote the portion after the match; any other `$`
sequence — including `$<digits>` and `$<`, since there are no (named)
captures — is kept literally. -/
def getSubstitution : List Char → List Char → List Char → List Char → List Char
  | [], _, _, _ => []
  | c :: r, matched, before, after =>
    if c = '$' then
      match r with
      | [] => ['$']
      | d :: r2 =>
        if d = '$' then '$' :: getSubstitution r2 matched before after
        else if d = '&' then matched ++ getSubstitution r2 matched before after
        else if d = bquote then before ++ getSubstitution r2 matched before after
        else if d = squote then after ++ getSubstitution r2 matched before after
        else '$' :: d :: getSubstitution r2 matched before after
    else c :: getSubstitution r matched before after

/-- JS `String.prototype.replace` with a plain (non-regex) search string:
replace the first occurrence only, applying `$`-substitution to the
replacement string. -/
def replaceFirst (s pat rep : List Char) : List Char :=
  match findSubstr s pat with
  | none => s
  | some i =>
      s.take i ++ getSubstitution rep pat (s.take i) (s.drop (i + pat.length)) ++
        s.drop (i + pat.length)

/-- The failures the resolver and handler can raise.  Constructors carry the
data the corresponding JS `Error` message interpolates.  `fuelExhausted` is
an artefact of embedding the unbounded `while` loop with fuel; it is proved
unreachable. -/
inductive Err where
  | disallowedHost (host : List Char)
  | invalidGithub (raw : List Char)
  | invalidNpm (raw : List Char)
  | missingPackageVersion (pkg : List Char)
  | noBaseContext (raw : List Char)
  | unsupportedImport (raw : List Char)
  | invalidUrl (raw : List Char)
  | fetchFailed (url : List Char)
  | tooManySources (limit : Nat)
  | totalBytesExceeded (limit : Nat)
  | fuelExhausted
  | external (msg : List Char)
deriving DecidableEq

/-- Components of a parsed `http(s)` URL. -/
structure UrlParts where
  scheme : List Char
  host : List Char
  path : List Char
deriving DecidableEq

/-- Drop an explicit default port (`:80` for http, `:443` for https), as the
WHATWG parser does when forming `URL.host`. -/
def stripDefaultPort (scheme hostport : List Char) : List Char :=
  let suf := if scheme = ("http".toList) then (":80".toList) else (":443".toList)
  if suf.isSuffixOf hostport then hostport.take (hostport.length - suf.length)
  else hostport

/-- Parse the part after `scheme://`: host up to `/`, `?` or `#`, lowercased,
then the rest verbatim (an empty rest becomes the root path `/`). -/
def parseAfterScheme (scheme rest : List Char) : Option UrlParts :=
  let hostport := rest.takeWhile (fun c => !(c == '/' || c == '?' || c == '#'))
  if hostport = [] then none
  else
    some { scheme := scheme
           host := stripDefaultPort scheme (hostport.map Char.toLower)
           path := if rest.drop hostport.length = [] then ['/'] else rest.drop hostport.length }

/-- Model of `new URL(s)` for absolute `http(s)` URLs; `none` models the
`TypeError` thrown on an invalid URL. -/
def parseUrl (s : List Char) : Option UrlParts :=
  if (s.take 8).map Char.toLower = ("https://".toList) then
    parseAfterScheme ("https".toList) (s.drop 8)
  else if (s.take 7).map Char.toLower = ("http://".toList) then
    parseAfterScheme ("http".toList) (s.drop 7)
  else none

/-- `URL.prototype.toString` for the simplified URL model. -/
def urlToString (u : UrlParts) : List Char :=
  u.scheme ++ ("://".toList) ++ u.host ++ u.path

/-- `hostFromUrl`: the `host` of the parsed URL, or `""` when parsing throws. -/
def hostFromUrl (u : List Char) : List Char :=
  match parseUrl u with
  | some p => p.host
  | none => []

/-- `isHttp`: the regex `/^https?:\/\//i`. -/
def isHttp (u : List Char) : Bool :=
  ((u.take 7).map Char.toLower == ("http://".toList)) ||
    ((u.take 8).map Char.toLower == ("https://".toList))

/-- `ALLOWED_HOSTS`. -/
def ALLOWED_HOSTS : List (List Char) :=
  [("unpkg.com".toList), ("raw.githubusercontent.com".toList),
   ("githubusercontent.com".toList)]

/-- `assertAllowed(url)` followed by returning `url` (every JS call site is
`assertAllowed(u); … return u`). -/
def allowedGuard (url : List Char) : Except Err (List Char) :=
  if hostFromUrl url ∈ ALLOWED_HOSTS then .ok url
  else .error (.disallowedHost (hostFromUrl url))

/-- `parseGithubShorthand`: the regex
`/^github:([^\/]+)\/([^@]+)@([^\/]+)\/(.+)$/` splits at the first `/`, then
the first `@`, then the first `/`; all four groups must be non-empty. -/
def parseGithubShorthand (s : List Char) : Option (List Char) :=
  if ("github:".toList).isPrefixOf s then
    match splitFirst (s.drop 7) '/' with
    | none => none
    | some (owner, rest1) =>
      if owner = [] then none
      else
        match splitFirst rest1 '@' with
        | none => none
        | some (repo, rest2) =>
          if repo = [] then none
          else
            match splitFirst rest2 '/' with
            | none => none
            | some (ref, filePath) =>
              if ref = [] then none
              else if filePath = [] then none
              else
                some (("https://raw.githubusercontent.com/".toList) ++ owner ++
                  '/' :: (repo ++ '/' :: (ref ++ '/' :: filePath)))
  else none

/-- `DEFAULT_NPM_CDN` (no `NPM_CDN` override in the deployed image). -/
def DEFAULT_NPM_CDN : List Char := ("https://unpkg.com".toList)

/-- Try every element in order, returning the first `some`. -/
def firstSome {α β : Type} : List α → (α → Option β) → Option β
  | [], _ => none
  | a :: t, f =>
      match f a with
      | some b => some b
      | none => firstSome t f

/-- `n, n-1, …, 0`. -/
def downFrom : Nat → List Nat
  | 0 => [0]
  | n + 1 => (n + 1) :: downFrom n

/-- `n, n-1, …, 1`. -/
def downFromPos : Nat → List Nat
  | 0 => []
  | n + 1 => (n + 1) :: downFromPos n

/-- Tail of the npm regex, `@([^\/]+)\/(.+)$`: version up to the first `/`,
then a non-empty remainder. -/
def npmVerSplit (r3 : List Char) : Option (List Char × List Char) :=
  let ver := r3.takeWhile (fun c => !(c == '/'))
  if ver = [] then none
  else
    match r3.drop ver.length with
    | '/' :: rest => if rest = [] then none else some (ver, rest)
    | _ => none

/-- One backtracking attempt for group 1 of the npm regex with `[^\/@]+`
consuming exactly `n1` characters; `\/?` and `[^@\/]*` are tried in greedy
priority order. -/
def npmTryAt (atp t : List Char) (n1 : Nat) : Option (List Char × List Char × List Char) :=
  let a := t.take n1
  let r := t.drop n1
  let opts : List (List Char × List Char) :=
    match r with
    | '/' :: r2 => [(a ++ ['/'], r2), (a, r)]
    | _ => [(a, r)]
  firstSome opts (fun p =>
    let maxRun2 := (p.2.takeWhile (fun c => !(c == '@' || c == '/'))).length
    firstSome (downFrom maxRun2) (fun n2 =>
      match p.2.drop n2 with
      | '@' :: r3 =>
          (npmVerSplit r3).map (fun q => (atp ++ p.1 ++ p.2.take n2, q.1, q.2))
      | _ => none))

/-- The regex `/^(@?[^\/@]+\/?[^@\/]*)@([^\/]+)\/(.+)$/` applied to the body
of an `npm:` specifier, with JS backtracking priority (longest first for the
greedy pieces). -/
def npmBodyMatch (body : List Char) : Option (List Char × List Char × List Char) :=
  let pr : List Char × List Char :=
    match body with
    | '@' :: r => (['@'], r)
    | _ => ([], body)
  let maxRun1 := (pr.2.takeWhile (fun c => !(c == '/' || c == '@'))).length
  firstSome (downFromPos maxRun1) (npmTryAt pr.1 pr.2)

/-- The test `/^@?[^.\/][^:]*\//.test(s)`: after an optional `@`, a first
character that is neither `.` nor `/`, and then a `/` occurring before any
`:`. -/
def bareTest (s : List Char) : Bool :=
  let t := match s with
    | '@' :: r => r
    | _ => s
  match t with
  | [] => false
  | c :: r =>
      if c == '.' || c == '/' then false
      else (r.takeWhile (fun d => !(d == ':'))).contains '/'

/-- `s.split("/")` of the bare-package branch. -/
def bareParts (s : List Char) : List (List Char) := splitAll s '/'

/-- `parts[0].startsWith("@")`. -/
def headIsAt (p : List Char) : Bool :=
  match p with
  | '@' :: _ => true
  | _ => false

/-- The `pkg` local of the bare-package branch. -/
def barePkg (s : List Char) : List Char :=
  match bareParts s with
  | [] => []
  | p0 :: rest =>
      if headIsAt p0 then p0 ++ '/' :: (rest.headD []) else p0

/-- The `rest` local of the bare-package branch. -/
def bareRest (s : List Char) : List Char :=
  let parts := bareParts s
  let tailParts := if headIsAt (parts.headD []) then parts.drop 2 else parts.drop 1
  List.intercalate ['/'] tailParts

/-- `parseNpmSpec(s, pkgVersions)`.  Returns `.ok none` where the JS returns
`null` (fall through to the caller's remaining cases), `.error` where it
throws.  Note `if (!ver)` also fires on an empty-string version. -/
def parseNpmSpec (s : List Char) (pv : List (List Char × List Char)) :
    Except Err (Option (List Char)) :=
  if ("npm:".toList).isPrefixOf s then
    match npmBodyMatch (s.drop 4) with
    | none => .error (.invalidNpm s)
    | some (pkg, ver, rest) =>
        .ok (some (DEFAULT_NPM_CDN ++ '/' :: (pkg ++ '@' :: (ver ++ '/' :: rest))))
  else if bareTest s then
    match lookupAssoc pv (barePkg s) with
    | none => .error (.missingPackageVersion (barePkg s))
    | some v =>
        if v = [] then .error (.missingPackageVersion (barePkg s))
        else .ok (some (DEFAULT_NPM_CDN ++ '/' :: (barePkg s ++ '@' :: (v ++ '/' :: bareRest s))))
  else .ok none

/-- Resolve `rel` (starting with `./` or `../`) against `base`, as
`new URL(rel, base)` does: drop the last path segment of the base, then
process the segments of `rel` with `.` skipped and `..` popping. -/
def resolveRelative (rel base : List Char) : Option (List Char) :=
  match parseUrl base with
  | none => none
  | some u =>
    let baseSegs : List (List Char) :=
      match splitAll u.path '/' with
      | [] => []
      | _ :: t => t
    let dir := baseSegs.dropLast
    let relSegs := splitAll rel '/'
    let processed := relSegs.foldl
      (fun acc seg =>
        if seg = (".".toList) then acc
        else if seg = ("..".toList) then acc.dropLast
        else acc ++ [seg]) dir
    let finalSegs :=
      if relSegs.getLast? = some (".".toList) ∨ relSegs.getLast? = some ("..".toList) then
        processed ++ [[]]
      else processed
    some (urlToString { scheme := u.scheme, host := u.host,
                        path := '/' :: List.intercalate ['/'] finalSegs })

/-- `/^[^.\/]/.test(raw)`. -/
def firstNonDotSlash (raw : List Char) : Bool :=
  match raw with
  | [] => false
  | c :: _ => !(c == '.' || c == '/')

/-- The final two cases of `resolveImportPath`: the relative-import case and
the trailing `throw` for unsupported specifiers. -/
def resolveRelativeBranch (raw : List Char) (parentBase : Option (List Char)) :
    Except Err (List Char) :=
  if ("./".toList).isPrefixOf raw || ("../".toList).isPrefixOf raw then
    match parentBase with
    | none => .error (.noBaseContext raw)
    | some base =>
      match resolveRelative raw base with
      | none => .error (.invalidUrl raw)
      | some url => allowedGuard url
  else .error (.unsupportedImport raw)

/-- `resolveImportPath(raw, parentBase, pkgVersions)`. -/
def resolveImportPath (raw : List Char) (parentBase : Option (List Char))
    (pv : List (List Char × List Char)) : Except Err (List Char) :=
  if isHttp raw then
    match parseUrl raw with
    | none => .error (.invalidUrl raw)
    | some u => allowedGuard (urlToString u)
  else if ("github:".toList).isPrefixOf raw then
    match parseGithubShorthand raw with
    | none => .error (.invalidGithub raw)
    | some u => allowedGuard u
  else if ("npm:".toList).isPrefixOf raw || firstNonDotSlash raw then
    match parseNpmSpec raw pv with
    | .error e => .error e
    | .ok (some u) => allowedGuard u
    | .ok none => resolveRelativeBranch raw parentBase
  else resolveRelativeBranch raw parentBase

/-- The suffix `(['"])([^'"]+)\1\s*;` of the import regex: a quote, a
non-empty maximal run of non-quote characters (greedy, and deterministic
because shortening it would put a non-quote where the backreference expects
the quote), the same quote, maximal whitespace, `;`.  Returns the consumed
length and the captured specifier. -/
def matchP3 (l : List Char) : Option (Nat × List Char) :=
  match l with
  | [] => none
  | q :: rest =>
    if isQuoteChar q then
      let spec := rest.takeWhile (fun c => !(isQuoteChar c))
      if spec = [] then none
      else
        match rest.drop spec.length with
        | [] => none
        | q2 :: rest2 =>
          if q2 == q then
            let ws := rest2.takeWhile isSpaceJS
            match rest2.drop ws.length with
            | ';' :: _ => some (1 + spec.length + 1 + ws.length + 1, spec)
            | _ => none
          else none
    else none

/-- One backtracking attempt of the optional group `[^'"]*from\s+` with the
`[^'"]*` consuming exactly `k` characters: `from`, at least one whitespace
(maximal, deterministic because the continuation starts with a quote), then
the quoted part. -/
def tryFromSplit (l : List Char) (k : Nat) : Option (Nat × List Char) :=
  let r := l.drop k
  if r.take 4 = ("from".toList) then
    let r2 := r.drop 4
    let ws := r2.takeWhile isSpaceJS
    if ws = [] then none
    else (matchP3 (r2.drop ws.length)).map (fun p => (k + 4 + ws.length + p.1, p.2))
  else none

/-- The part after `import\s+`: the optional group `(?:[^'"]*from\s+)?` is
tried first (its greedy `[^'"]*` longest first), then the quoted part
directly — the JS backtracking priority. -/
def matchP2 (l : List Char) : Option (Nat × List Char) :=
  let maxK := (l.takeWhile (fun c => !(isQuoteChar c))).length
  match firstSome (downFrom maxK) (tryFromSplit l) with
  | some res => some res
  | none => matchP3 l

/-- A match of `/import\s+(?:[^'"]*from\s+)?(['"])([^'"]+)\1\s*;/` anchored
at the head of `l`: consumed length and captured specifier.  The `\s+` after
`import` is taken maximally; giving characters back cannot change the result
because a match of the remainder starting on a whitespace character shifts
to one starting after it. -/
def matchImportAt (l : List Char) : Option (Nat × List Char) :=
  if l.take 6 = ("import".toList) then
    let r := l.drop 6
    let ws := r.takeWhile isSpaceJS
    if ws = [] then none
    else (matchP2 (r.drop ws.length)).map (fun p => (6 + ws.length + p.1, p.2))
  else none

/-- One element of `extractImportsWithRanges`' output: `m.index`,
`re.lastIndex` (called `end` in the JS object) and the captured specifier. -/
structure ImportMatch where
  start : Nat
  stop : Nat
  spec : List Char
deriving DecidableEq

/-- Successive non-overlapping leftmost matches, as `re.exec` with the `g`
flag produces them; `off` is the absolute offset of `l` in the scanned
string and the fuel is an upper bound on the number of scan steps. -/
def scanFrom : Nat → List Char → Nat → List ImportMatch
  | 0, _, _ => []
  | fuel + 1, l, off =>
    match matchImportAt l with
    | some (n, spec) =>
        { start := off, stop := off + n, spec := spec } :: scanFrom fuel (l.drop n) (off + n)
    | none =>
      match l with
      | [] => []
      | _ :: t => scanFrom fuel t (off + 1)

/-- `extractImportsWithRanges(sol)`. -/
def extractImportsWithRanges (content : List Char) : List ImportMatch :=
  scanFrom (content.length + 1) content 0

/-- `fetchText(url, cache)` together with the log of network retrievals
actually performed: a cache hit touches neither the network nor the log; a
miss asks the oracle (recording the access) and caches only a successful
body, `none` modelling the thrown `Fetch failed` error. -/
def fetchText (url : List Char) (cache : List (List Char × List Char))
    (log : List (List Char)) (oracle : List Char → Option (List Char)) :
    Option (List Char) × List (List Char × List Char) × List (List Char) :=
  match lookupAssoc cache url with
  | some t => (some t, cache, log)
  | none =>
    match oracle url with
    | some t => (some t, setAssoc cache url t, log ++ [url])
    | none => (none, cache, log ++ [url])

/-- A graph node: `{ content, baseUrl, children }`. -/
structure Node where
  content : List Char
  baseUrl : Option (List Char)
  children : List (List Char × List Char)
deriving DecidableEq

/-- The mutable state of `resolveAllSources`' traversal, plus the ghost
fetch log. -/
structure BfsState where
  nodes : List (List Char × Node)
  queue : List (List Char)
  cache : List (List Char × List Char)
  log : List (List Char)
  totalBytes : Nat
deriving DecidableEq

/-- The body of `for (const imp of imps)` for one import: record the edge,
then fetch/insert/enqueue when the canonical key is new, checking the byte
ceiling after the fetch and the source-count ceiling after the block. -/
def stepImport (oracle : List Char → Option (List Char))
    (pv : List (List Char × List Char)) (maxS maxB : Nat)
    (key : List Char) (base : Option (List Char)) (imp : ImportMatch)
    (s : BfsState) : BfsState × Option Err :=
  match resolveImportPath imp.spec base pv with
  | .error e => (s, some e)
  | .ok resolved =>
    let newNodes :=
      updateNode s.nodes key
        (fun n => { n with children := setAssoc n.children imp.spec resolved })
    let s1 : BfsState := { s with nodes := newNodes }
    if hasKey s1.nodes resolved then
      if maxS < s1.nodes.length then (s1, some (.tooManySources maxS))
      else (s1, none)
    else
      match fetchText resolved s1.cache s1.log oracle with
      | (none, cache2, log2) =>
          ({ s1 with cache := cache2, log := log2 }, some (.fetchFailed resolved))
      | (some txt, cache2, log2) =>
        let tb := s1.totalBytes + utf8Len txt
        if maxB < tb then
          ({ s1 with cache := cache2, log := log2, totalBytes := tb },
            some (.totalBytesExceeded maxB))
        else
          let s2 : BfsState :=
            { nodes := s1.nodes ++
                [(resolved, { content := txt, baseUrl := some resolved, children := [] })]
              queue := s1.queue ++ [resolved]
              cache := cache2
              log := log2
              totalBytes := tb }
          if maxS < s2.nodes.length then (s2, some (.tooManySources maxS))
          else (s2, none)

/-- The `for (const imp of imps)` loop: run `stepImport` over the matches,
stopping at the first thrown error. -/
def processImports (oracle : List Char → Option (List Char))
    (pv : List (List Char × List Char)) (maxS maxB : Nat)
    (key : List Char) (base : Option (List Char)) :
    List ImportMatch → BfsState → BfsState × Option Err
  | [], s => (s, none)
  | imp :: imps, s =>
    match stepImport oracle pv maxS maxB key base imp s with
    | (s2, some e) => (s2, some e)
    | (s2, none) => processImports oracle pv maxS maxB key base imps s2

/-- Placeholder node for the (unreachable) case that a queued key has no
entry in the node map; every enqueued key is inserted into `nodes` first. -/
def emptyNode : Node := { content := [], baseUrl := none, children := [] }

/-- The `while (queue.length)` loop of `resolveAllSources`.  The fuel bounds
the number of iterations; `buildGraph` supplies enough for the loop to be
exhausted only through its own checks (proved below). -/
def bfsLoop (oracle : List Char → Option (List Char))
    (pv : List (List Char × List Char)) (maxS maxB : Nat) :
    Nat → BfsState → BfsState × Option Err
  | fuel, s =>
    match s.queue with
    | [] => (s, none)
    | key :: rest =>
      if maxS < s.nodes.length then (s, some (.tooManySources maxS))
      else
        match fuel with
        | 0 => (s, some .fuelExhausted)
        | fuel' + 1 =>
          let node := (lookupAssoc s.nodes key).getD emptyNode
          match processImports oracle pv maxS maxB key node.baseUrl
              (extractImportsWithRanges node.content) { s with queue := rest } with
          | (s2, some e) => (s2, some e)
          | (s2, none) => bfsLoop oracle pv maxS maxB fuel' s2

/-- The state just before the `while` loop: entry node seeded, entry
enqueued, running byte total = entry size. -/
def initState (entryContent entryKey : List Char) : BfsState :=
  { nodes := [(entryKey, { content := entryContent, baseUrl := none, children := [] })]
    queue := [entryKey]
    cache := []
    log := []
    totalBytes := utf8Len entryContent }

/-- The traversal part of `resolveAllSources` (everything before the rewrite
pass), returning the final state and the thrown error if any. -/
def buildGraph (entryContent entryKey : List Char)
    (pv : List (List Char × List Char)) (maxS maxB : Nat)
    (oracle : List Char → Option (List Char)) : BfsState × Option Err :=
  bfsLoop oracle pv maxS maxB (maxS + 2) (initState entryContent entryKey)

/-- One rewrite step: splice `text.slice(0, start) + replaced +
text.slice(end)` where `replaced` replaces the first occurrence of the raw
specifier inside the sliced statement with its canonical key; imports whose
specifier has no recorded child are skipped. -/
def applyRewrite (children : List (List Char × List Char))
    (text : List Char) (imp : ImportMatch) : List Char :=
  match lookupAssoc children imp.spec with
  | none => text
  | some rk =>
    let original := (text.drop imp.start).take (imp.stop - imp.start)
    text.take imp.start ++ replaceFirst original imp.spec rk ++ text.drop imp.stop

/-- The rewrite pass for one node: re-extract the imports and replace from
the last match to the first. -/
def rewriteContent (content : List Char)
    (children : List (List Char × List Char)) : List Char :=
  ((extractImportsWithRanges content).reverse).foldl (applyRewrite children) content

/-- `resolveAllSources(entryContent, entryKey, options)`: traverse, then
rewrite every node; `{ key: { content } }` is modelled as an association
list in node insertion order. -/
def resolveAllSources (entryContent entryKey : List Char)
    (pv : List (List Char × List Char)) (maxS maxB : Nat)
    (oracle : List Char → Option (List Char)) :
    Except Err (List (List Char × List Char)) :=
  match buildGraph entryContent entryKey pv maxS maxB oracle with
  | (_, some e) => .error e
  | (s, none) => .ok (s.nodes.map (fun kn => (kn.1, rewriteContent kn.2.content kn.2.children)))

/-- `MAX_SOURCES` (default, no env override in the deployed image). -/
def MAX_SOURCES : Nat := 64

/-- `MAX_TOTAL_BYTES` (default, no env override in the deployed image). -/
def MAX_TOTAL_BYTES : Nat := 1500000

/-- The JS `Error` message of each failure, as interpolated in `server.js`.
The `Fetch failed` message's upstream status code and the `TypeError` text
of an invalid `new URL` are not modelled. -/
def errMessage : Err → List Char
  | .disallowedHost h => ("Disallowed host for imports: ".toList) ++ h
  | .invalidGithub raw => ("Invalid GitHub shorthand: ".toList) ++ raw
  | .invalidNpm s => ("Invalid npm import: ".toList) ++ s
  | .missingPackageVersion pkg =>
      ("Missing version for package \"".toList) ++ pkg ++
        ("\". Provide \"packageVersions\": \x7b \"".toList) ++ pkg ++
        ("\": \"<version>\" \x7d".toList)
  | .noBaseContext raw =>
      ("Relative import \"".toList) ++ raw ++ ("\" has no base context".toList)
  | .unsupportedImport raw => ("Unsupported import path: ".toList) ++ raw
  | .invalidUrl raw => ("Invalid URL: ".toList) ++ raw
  | .fetchFailed url => ("Fetch failed for ".toList) ++ url
  | .tooManySources m =>
      ("Too many source files (> ".toList) ++ (Nat.repr m).toList ++ (")".toList)
  | .totalBytesExceeded m =>
      ("Total import size exceeded (".toList) ++ (Nat.repr m).toList ++ (" bytes)".toList)
  | .fuelExhausted => ("fuel exhausted".toList)
  | .external msg => msg

/-- `filename.replace(/[^a-zA-Z0-9_.-]/g, "")`. -/
def sanitizeFilename (s : List Char) : List Char :=
  s.filter (fun c =>
    (('a' ≤ c && c ≤ 'z') || ('A' ≤ c && c ≤ 'Z') || ('0' ≤ c && c ≤ '9') ||
      c == '_' || c == '.' || c == '-'))

/-- The `safeName` computation
`(filename && filename.replace(…)) || defaultName`: a missing filename, an
empty filename, and a filename whose sanitisation is empty (falsy `""`) all
fall back to the generated default. -/
def safeNameOf (filename : Option (List Char)) (defaultName : List Char) : List Char :=
  match filename with
  | none => defaultName
  | some f =>
      if f = [] then defaultName
      else if sanitizeFilename f = [] then defaultName
      else sanitizeFilename f

/-- The response shapes of the `/compile` handler that the claims mention:
the 400 on a missing source, the catch-all `{success:false, error}`, and the
200 `base` object (of which the `success`, `filename` and `files` fields are
modelled). -/
inductive Resp where
  | badRequest (error : List Char)
  | errorResp (e : Err)
  | okResp (success : Bool) (filename : List Char) (files : List (List Char))
deriving DecidableEq

/-- Observable outcome of one `/compile` request: whether the temp directory
was created (`fs.mkdtemp`) and removed (`fs.rm`), plus the response. -/
structure CompileOutcome where
  tmpCreated : Bool
  tmpRemoved : Bool
  resp : Resp
deriving DecidableEq

/-- The `app.post("/compile")` handler.  External collaborators are
abstracted: `defaultName` stands for the generated
`Contract_<uuid-prefix>.sol`, `loadErr` for a failure of `loadCompiler`,
`compileErr` for a throw out of `compiler.compile`/`JSON.parse`, and
`hasError` for whether any diagnostic has severity `error`.  The handler
removes the temp directory (best effort) only after a successful compile,
just before responding; the `catch` branch responds without removing it. -/
def compileHandler (source : Option (List Char)) (filename : Option (List Char))
    (pv : List (List Char × List Char)) (oracle : List Char → Option (List Char))
    (defaultName : List Char) (loadErr compileErr : Option Err)
    (hasError : Bool) : CompileOutcome :=
  match source with
  | none =>
      { tmpCreated := false, tmpRemoved := false
        resp := .badRequest ("Missing \x27source\x27 string.".toList) }
  | some src =>
    if src.all isSpaceJS then
      { tmpCreated := false, tmpRemoved := false
        resp := .badRequest ("Missing \x27source\x27 string.".toList) }
    else
      let safeName := safeNameOf filename defaultName
      match resolveAllSources src safeName pv MAX_SOURCES MAX_TOTAL_BYTES oracle with
      | .error e => { tmpCreated := true, tmpRemoved := false, resp := .errorResp e }
      | .ok doc =>
        match loadErr with
        | some e => { tmpCreated := true, tmpRemoved := false, resp := .errorResp e }
        | none =>
          match compileErr with
          | some e => { tmpCreated := true, tmpRemoved := false, resp := .errorResp e }
          | none =>
              { tmpCreated := true, tmpRemoved := true
                resp := .okResp (!hasError) safeName (doc.map (fun kv => kv.1)) }

/-! ### Basic facts about the association-list operations -/

theorem hasKey_iff_mem {α : Type} (l : List (List Char × α)) (k : List Char) :
    hasKey l k = true ↔ k ∈ l.map Prod.fst := by
  induction l with
  | nil =>
    constructor
    · intro h
      exact absurd h (by rw [show hasKey ([] : List (List Char × α)) k = false from rfl]; exact Bool.false_ne_true)
    · intro h
      exact absurd h (List.not_mem_nil k)
  | cons h t ih =>
    obtain ⟨k2, v⟩ := h
    by_cases hk : k2 = k
    · subst hk
      constructor
      · intro _
        exact List.mem_cons_self _ _
      · intro _
        show (lookupAssoc ((k2, v) :: t) k2).isSome = true
        show (if k2 = k2 then some v else lookupAssoc t k2).isSome = true
        rw [if_pos rfl]
        rfl
    · simp only [hasKey, lookupAssoc, if_neg hk, List.map_cons, List.mem_cons]
      rw [← hasKey, ih]
      constructor
      · exact Or.inr
      · rintro (h | h)
        · exact absurd h.symm hk
        · exact h

theorem length_updateNode {α : Type} (l : List (List Char × α)) (k : List Char)
    (f : α → α) : (updateNode l k f).length = l.length := by
  induction l with
  | nil => simp [updateNode]
  | cons h t ih =>
    obtain ⟨k2, v⟩ := h
    by_cases hk : k2 = k <;> simp [updateNode, hk, ih]

theorem keys_updateNode {α : Type} (l : List (List Char × α)) (k : List Char)
    (f : α → α) : (updateNode l k f).map Prod.fst = l.map Prod.fst := by
  induction l with
  | nil => simp [updateNode]
  | cons h t ih =>
    obtain ⟨k2, v⟩ := h
    by_cases hk : k2 = k
    · subst hk; simp [updateNode]
    · simp [updateNode, hk, ih]

theorem hasKey_updateNode {α : Type} (l : List (List Char × α)) (k k2 : List Char)
    (f : α → α) : hasKey (updateNode l k f) k2 = hasKey l k2 := by
  induction l with
  | nil => rfl
  | cons h t ih =>
    obtain ⟨k3, v⟩ := h
    by_cases hk : k3 = k
    · subst hk
      by_cases hk2 : k3 = k2 <;> simp [updateNode, hasKey, lookupAssoc, hk2]
    · by_cases hk2 : k3 = k2
      · subst hk2
        simp [updateNode, hasKey, lookupAssoc, hk]
      · simp only [updateNode, if_neg hk, hasKey, lookupAssoc, if_neg hk2]
        exact ih

theorem hasKey_append {α : Type} (l m : List (List Char × α)) (k : List Char) :
    hasKey (l ++ m) k = (hasKey l k || hasKey m k) := by
  induction l with
  | nil =>
    show hasKey m k = (hasKey ([] : List (List Char × α)) k || hasKey m k)
    rfl
  | cons h t ih =>
    obtain ⟨k2, v⟩ := h
    by_cases hk : k2 = k
    · simp [hasKey, lookupAssoc, hk]
    · simp only [List.cons_append, hasKey, lookupAssoc, if_neg hk]
      exact ih

theorem nodup_snoc {α : Type} (l : List α) (u : α) :
    (l ++ [u]).Nodup ↔ l.Nodup ∧ u ∉ l := by
  simp [List.nodup_append]

/-! ### The success path of the specifier resolver always passes the
host check -/

theorem allowedGuard_ok {u v : List Char} (h : allowedGuard u = .ok v) :
    v = u ∧ hostFromUrl u ∈ ALLOWED_HOSTS := by
  by_cases hm : hostFromUrl u ∈ ALLOWED_HOSTS
  · refine ⟨?_, hm⟩
    simpa [allowedGuard, hm] using h.symm
  · simp [allowedGuard, hm] at h

theorem allowedGuard_ok_host {u v : List Char} (h : allowedGuard u = .ok v) :
    hostFromUrl v ∈ ALLOWED_HOSTS := by
  obtain ⟨he, hm⟩ := allowedGuard_ok h
  rw [he]
  exact hm

theorem resolveRelativeBranch_ok_allowed {raw u : List Char}
    {base : Option (List Char)} (h : resolveRelativeBranch raw base = .ok u) :
    hostFromUrl u ∈ ALLOWED_HOSTS := by
  unfold resolveRelativeBranch at h
  split at h
  · cases base with
    | none => simp at h
    | some b =>
      simp only at h
      split at h
      · simp at h
      · exact allowedGuard_ok_host h
  · simp at h

theorem resolveImportPath_ok_allowed {raw u : List Char}
    {base : Option (List Char)} {pv : List (List Char × List Char)}
    (h : resolveImportPath raw base pv = .ok u) :
    hostFromUrl u ∈ ALLOWED_HOSTS := by
  unfold resolveImportPath at h
  split at h
  · split at h
    · simp at h
    · exact allowedGuard_ok_host h
  · split at h
    · split at h
      · simp at h
      · exact allowedGuard_ok_host h
    · split at h
      · split at h
        · simp at h
        · exact allowedGuard_ok_host h
        · exact resolveRelativeBranch_ok_allowed h
      · exact resolveRelativeBranch_ok_allowed h

/-! ### Case descriptions of `fetchText` -/

theorem fetchText_none_eq {u : List Char} {c : List (List Char × List Char)}
    {l : List (List Char)} {o : List Char → Option (List Char)}
    {c2 : List (List Char × List Char)} {l2 : List (List Char)}
    (h : fetchText u c l o = (none, c2, l2)) :
    c2 = c ∧ l2 = l ++ [u] := by
  unfold fetchText at h
  split at h
  · simp at h
  · split at h
    · simp at h
    · simp only [Prod.mk.injEq] at h
      exact ⟨h.2.1.symm, h.2.2.symm⟩

theorem fetchText_some_eq {u t : List Char} {c : List (List Char × List Char)}
    {l : List (List Char)} {o : List Char → Option (List Char)}
    {c2 : List (List Char × List Char)} {l2 : List (List Char)}
    (h : fetchText u c l o = (some t, c2, l2)) :
    (c2 = c ∧ l2 = l) ∨ (c2 = setAssoc c u t ∧ l2 = l ++ [u]) := by
  unfold fetchText at h
  split at h
  · simp only [Prod.mk.injEq] at h
    exact Or.inl ⟨h.2.1.symm, h.2.2.symm⟩
  · split at h
    · simp only [Prod.mk.injEq, Option.some.injEq] at h
      refine Or.inr ⟨?_, h.2.2.symm⟩
      rw [← h.2.1, h.1]
    · simp at h

/-! ### The resolver never produces the fuel-exhaustion marker -/

theorem allowedGuard_ne_fuel (u : List Char) :
    allowedGuard u ≠ .error .fuelExhausted := by
  unfold allowedGuard
  split <;> simp

theorem parseNpmSpec_ne_fuel (s : List Char) (pv : List (List Char × List Char)) :
    parseNpmSpec s pv ≠ .error .fuelExhausted := by
  unfold parseNpmSpec
  split
  · split <;> simp
  · split
    · split
      · simp
      · split <;> simp
    · simp

theorem resolveRelativeBranch_ne_fuel (raw : List Char) (base : Option (List Char)) :
    resolveRelativeBranch raw base ≠ .error .fuelExhausted := by
  unfold resolveRelativeBranch
  split
  · match base with
    | none => simp
    | some b =>
      simp only
      split
      · simp
      · exact allowedGuard_ne_fuel _
  · simp

theorem resolveImportPath_ne_fuel (raw : List Char) (base : Option (List Char))
    (pv : List (List Char × List Char)) :
    resolveImportPath raw base pv ≠ .error .fuelExhausted := by
  unfold resolveImportPath
  split
  · split
    · simp
    · exact allowedGuard_ne_fuel _
  · split
    · split
      · simp
      · exact allowedGuard_ne_fuel _
    · split
      · split
        · next e heq =>
            intro hc
            injection hc with h2
            exact parseNpmSpec_ne_fuel raw pv (h2 ▸ heq)
        · exact allowedGuard_ne_fuel _
        · exact resolveRelativeBranch_ne_fuel _ _
      · exact resolveRelativeBranch_ne_fuel _ _

/-! ### Invariants of one traversal step -/

/-- Log invariant carried through the loop: no duplicate retrievals, every
retrieved URL passed the host check, and every retrieved URL has a node. -/
def GoodLog (s : BfsState) : Prop :=
  s.log.Nodup ∧ (∀ u ∈ s.log, hostFromUrl u ∈ ALLOWED_HOSTS) ∧
    (∀ u ∈ s.log, hasKey s.nodes u = true)

/-- The part of `GoodLog` that also holds for the state an error leaves
behind. -/
def WeakLog (s : BfsState) : Prop :=
  s.log.Nodup ∧ (∀ u ∈ s.log, hostFromUrl u ∈ ALLOWED_HOSTS)

theorem stepImport_spec (oracle : List Char → Option (List Char))
    (pv : List (List Char × List Char)) (maxS maxB : Nat)
    (key : List Char) (base : Option (List Char)) (imp : ImportMatch)
    (s s' : BfsState) (oe : Option Err)
    (h : stepImport oracle pv maxS maxB key base imp s = (s', oe)) :
    oe ≠ some .fuelExhausted ∧
    (∀ k, hasKey s.nodes k = true → hasKey s'.nodes k = true) ∧
    ((s.nodes.map Prod.fst).Nodup → (s'.nodes.map Prod.fst).Nodup) ∧
    (oe = none →
      s'.queue.length + s.nodes.length = s.queue.length + s'.nodes.length ∧
      s'.nodes.length ≤ maxS ∧
      ((2 ≤ s.nodes.length → s.totalBytes ≤ maxB) →
        (2 ≤ s'.nodes.length → s'.totalBytes ≤ maxB))) ∧
    (GoodLog s → WeakLog s' ∧ (oe = none → GoodLog s')) := by
  unfold stepImport at h
  split at h
  case h_1 e heq =>
    injection h with h1 h2
    subst h1
    subst h2
    refine ⟨?_, fun k hk => hk, fun hn => hn, ?_, ?_⟩
    · intro hc
      injection hc with hc2
      exact resolveImportPath_ne_fuel _ _ _ (hc2 ▸ heq)
    · intro hc
      exact absurd hc (by simp)
    · intro hg
      exact ⟨⟨hg.1, hg.2.1⟩, fun hc => absurd hc (by simp)⟩
  case h_2 resolved heq =>
    simp only [] at h
    split at h
    case isTrue hHas =>
      rw [hasKey_updateNode] at hHas
      split at h
      case isTrue hSz =>
        injection h with h1 h2
        subst h1
        subst h2
        refine ⟨by simp, ?_, ?_, ?_, ?_⟩
        · intro k hk
          show hasKey (updateNode s.nodes key _) k = true
          rw [hasKey_updateNode]
          exact hk
        · intro hn
          show ((updateNode s.nodes key _).map Prod.fst).Nodup
          rw [keys_updateNode]
          exact hn
        · intro hc
          exact absurd hc (by simp)
        · intro hg
          refine ⟨⟨hg.1, hg.2.1⟩, fun hc => absurd hc (by simp)⟩
      case isFalse hSz =>
        injection h with h1 h2
        subst h1
        subst h2
        refine ⟨by simp, ?_, ?_, ?_, ?_⟩
        · intro k hk
          show hasKey (updateNode s.nodes key _) k = true
          rw [hasKey_updateNode]
          exact hk
        · intro hn
          show ((updateNode s.nodes key _).map Prod.fst).Nodup
          rw [keys_updateNode]
          exact hn
        · intro _
          have hlen := length_updateNode s.nodes key
            (fun n => { n with children := setAssoc n.children imp.spec resolved })
          refine ⟨?_, ?_, ?_⟩
          · show s.queue.length + s.nodes.length = s.queue.length + (updateNode s.nodes key _).length
            omega
          · show (updateNode s.nodes key _).length ≤ maxS
            omega
          · intro hb h2
            have h3 : 2 ≤ (updateNode s.nodes key
              (fun n => { n with children := setAssoc n.children imp.spec resolved })).length := h2
            show s.totalBytes ≤ maxB
            exact hb (by omega)
        · intro hg
          refine ⟨⟨hg.1, hg.2.1⟩, fun _ => ⟨hg.1, hg.2.1, ?_⟩⟩
          intro u hu
          show hasKey (updateNode s.nodes key _) u = true
          rw [hasKey_updateNode]
          exact hg.2.2 u hu
    case isFalse hHas =>
      rw [hasKey_updateNode] at hHas
      split at h
      case h_1 c2 l2 hfetch =>
        obtain ⟨hc2, hl2⟩ := fetchText_none_eq hfetch
        injection h with h1 h2
        subst h1
        subst h2
        refine ⟨by simp, ?_, ?_, ?_, ?_⟩
        · intro k hk
          show hasKey (updateNode s.nodes key _) k = true
          rw [hasKey_updateNode]
          exact hk
        · intro hn
          show ((updateNode s.nodes key _).map Prod.fst).Nodup
          rw [keys_updateNode]
          exact hn
        · intro hc
          exact absurd hc (by simp)
        · intro hg
          refine ⟨⟨?_, ?_⟩, fun hc => absurd hc (by simp)⟩
          · show l2.Nodup
            rw [hl2, nodup_snoc]
            refine ⟨hg.1, fun hm => ?_⟩
            exact hHas (hg.2.2 resolved hm)
          · intro u hu
            show hostFromUrl u ∈ ALLOWED_HOSTS
            rw [hl2] at hu
            rcases List.mem_append.1 hu with hu | hu
            · exact hg.2.1 u hu
            · rw [List.mem_singleton.1 hu]
              exact resolveImportPath_ok_allowed heq
      case h_2 txt c2 l2 hfetch =>
        split at h
        case isTrue hByte =>
          injection h with h1 h2
          subst h1
          subst h2
          refine ⟨by simp, ?_, ?_, ?_, ?_⟩
          · intro k hk
            show hasKey (updateNode s.nodes key _) k = true
            rw [hasKey_updateNode]
            exact hk
          · intro hn
            show ((updateNode s.nodes key _).map Prod.fst).Nodup
            rw [keys_updateNode]
            exact hn
          · intro hc
            exact absurd hc (by simp)
          · intro hg
            refine ⟨⟨?_, ?_⟩, fun hc => absurd hc (by simp)⟩
            · show l2.Nodup
              rcases fetchText_some_eq hfetch with ⟨-, hl2⟩ | ⟨-, hl2⟩
              · rw [hl2]
                exact hg.1
              · rw [hl2, nodup_snoc]
                exact ⟨hg.1, fun hm => hHas (hg.2.2 resolved hm)⟩
            · intro u hu
              show hostFromUrl u ∈ ALLOWED_HOSTS
              rcases fetchText_some_eq hfetch with ⟨-, hl2⟩ | ⟨-, hl2⟩
              · rw [hl2] at hu
                exact hg.2.1 u hu
              · rw [hl2] at hu
                rcases List.mem_append.1 hu with hu | hu
                · exact hg.2.1 u hu
                · rw [List.mem_singleton.1 hu]
                  exact resolveImportPath_ok_allowed heq
        case isFalse hByte =>
          split at h
          case isTrue hSz =>
            injection h with h1 h2
            subst h1
            subst h2
            refine ⟨by simp, ?_, ?_, ?_, ?_⟩
            · intro k hk
              show hasKey (updateNode s.nodes key _ ++ _) k = true
              rw [hasKey_append, hasKey_updateNode, hk]
              rfl
            · intro hn
              show (((updateNode s.nodes key _ ++ _)).map Prod.fst).Nodup
              rw [List.map_append, keys_updateNode]
              simp only [List.map_cons, List.map_nil]
              rw [nodup_snoc]
              exact ⟨hn, fun hm => hHas ((hasKey_iff_mem s.nodes resolved).2 hm)⟩
            · intro hc
              exact absurd hc (by simp)
            · intro hg
              refine ⟨⟨?_, ?_⟩, fun hc => absurd hc (by simp)⟩
              · show l2.Nodup
                rcases fetchText_some_eq hfetch with ⟨-, hl2⟩ | ⟨-, hl2⟩
                · rw [hl2]
                  exact hg.1
                · rw [hl2, nodup_snoc]
                  exact ⟨hg.1, fun hm => hHas (hg.2.2 resolved hm)⟩
              · intro u hu
                show hostFromUrl u ∈ ALLOWED_HOSTS
                rcases fetchText_some_eq hfetch with ⟨-, hl2⟩ | ⟨-, hl2⟩
                · rw [hl2] at hu
                  exact hg.2.1 u hu
                · rw [hl2] at hu
                  rcases List.mem_append.1 hu with hu | hu
                  · exact hg.2.1 u hu
                  · rw [List.mem_singleton.1 hu]
                    exact resolveImportPath_ok_allowed heq
          case isFalse hSz =>
            injection h with h1 h2
            subst h1
            subst h2
            refine ⟨by simp, ?_, ?_, ?_, ?_⟩
            · intro k hk
              show hasKey (updateNode s.nodes key _ ++ _) k = true
              rw [hasKey_append, hasKey_updateNode, hk]
              rfl
            · intro hn
              show (((updateNode s.nodes key _ ++ _)).map Prod.fst).Nodup
              rw [List.map_append, keys_updateNode]
              simp only [List.map_cons, List.map_nil]
              rw [nodup_snoc]
              exact ⟨hn, fun hm => hHas ((hasKey_iff_mem s.nodes resolved).2 hm)⟩
            · intro _
              simp only [List.length_append, length_updateNode, List.length_singleton] at hSz ⊢
              refine ⟨by omega, by omega, ?_⟩
              intro _ _
              show s.totalBytes + utf8Len txt ≤ maxB
              omega
            · intro hg
              have hndp : l2.Nodup := by
                rcases fetchText_some_eq hfetch with ⟨-, hl2⟩ | ⟨-, hl2⟩
                · rw [hl2]
                  exact hg.1
                · rw [hl2, nodup_snoc]
                  exact ⟨hg.1, fun hm => hHas (hg.2.2 resolved hm)⟩
              have hall : ∀ u ∈ l2, hostFromUrl u ∈ ALLOWED_HOSTS := by
                intro u hu
                rcases fetchText_some_eq hfetch with ⟨-, hl2⟩ | ⟨-, hl2⟩
                · rw [hl2] at hu
                  exact hg.2.1 u hu
                · rw [hl2] at hu
                  rcases List.mem_append.1 hu with hu | hu
                  · exact hg.2.1 u hu
                  · rw [List.mem_singleton.1 hu]
                    exact resolveImportPath_ok_allowed heq
              refine ⟨⟨hndp, hall⟩, fun _ => ⟨hndp, hall, ?_⟩⟩
              intro u hu
              show hasKey (updateNode s.nodes key _ ++ _) u = true
              rw [hasKey_append, hasKey_updateNode]
              have hmem : u ∈ s.log ∨ u = resolved := by
                rcases fetchText_some_eq hfetch with ⟨-, hl2⟩ | ⟨-, hl2⟩
                · rw [hl2] at hu
                  exact Or.inl hu
                · rw [hl2] at hu
                  rcases List.mem_append.1 hu with hu | hu
                  · exact Or.inl hu
                  · exact Or.inr (List.mem_singleton.1 hu)
              rcases hmem with hu2 | hu2
              · rw [hg.2.2 u hu2]
                rfl
              · subst hu2
                simp [hasKey, lookupAssoc]
theorem stepImport_byte_trip (oracle : List Char → Option (List Char))
    (pv : List (List Char × List Char)) (maxS maxB : Nat)
    (key : List Char) (base : Option (List Char)) (imp : ImportMatch)
    (s : BfsState) (resolved txt : List Char)
    (cache2 : List (List Char × List Char)) (log2 : List (List Char))
    (hres : resolveImportPath imp.spec base pv = .ok resolved)
    (hkey : hasKey s.nodes resolved = false)
    (hfetch : fetchText resolved s.cache s.log oracle = (some txt, cache2, log2))
    (hover : maxB < s.totalBytes + utf8Len txt) :
    (stepImport oracle pv maxS maxB key base imp s).2
      = some (.totalBytesExceeded maxB) := by
  unfold stepImport
  rw [hres]
  simp only [hasKey_updateNode, hkey, Bool.false_eq_true, if_false]
  rw [hfetch]
  simp only [if_pos hover]

theorem stepImport_count_trip (oracle : List Char → Option (List Char))
    (pv : List (List Char × List Char)) (maxS maxB : Nat)
    (key : List Char) (base : Option (List Char)) (imp : ImportMatch)
    (s : BfsState) (resolved txt : List Char)
    (cache2 : List (List Char × List Char)) (log2 : List (List Char))
    (hres : resolveImportPath imp.spec base pv = .ok resolved)
    (hkey : hasKey s.nodes resolved = false)
    (hfetch : fetchText resolved s.cache s.log oracle = (some txt, cache2, log2))
    (hnot : ¬ maxB < s.totalBytes + utf8Len txt)
    (hsz : maxS < s.nodes.length + 1) :
    (stepImport oracle pv maxS maxB key base imp s).2
      = some (.tooManySources maxS) := by
  unfold stepImport
  rw [hres]
  simp only [hasKey_updateNode, hkey, Bool.false_eq_true, if_false]
  rw [hfetch]
  simp only [if_neg hnot]
  have hlen : (updateNode s.nodes key
      (fun n => { n with children := setAssoc n.children imp.spec resolved })).length
      = s.nodes.length := length_updateNode s.nodes key _
  rw [if_pos]
  rw [List.length_append, hlen]
  exact hsz

theorem buildGraph_error_propagates (entry key : List Char)
    (pv : List (List Char × List Char)) (maxS maxB : Nat)
    (oracle : List Char → Option (List Char)) (s2 : BfsState) (e : Err)
    (h : buildGraph entry key pv maxS maxB oracle = (s2, some e)) :
    resolveAllSources entry key pv maxS maxB oracle = .error e := by
  unfold resolveAllSources
  rw [h]

theorem processImports_spec (oracle : List Char → Option (List Char))
    (pv : List (List Char × List Char)) (maxS maxB : Nat)
    (key : List Char) (base : Option (List Char)) :
    ∀ (imps : List ImportMatch) (s s' : BfsState) (oe : Option Err),
      processImports oracle pv maxS maxB key base imps s = (s', oe) →
      oe ≠ some .fuelExhausted ∧
      (∀ k, hasKey s.nodes k = true → hasKey s'.nodes k = true) ∧
      ((s.nodes.map Prod.fst).Nodup → (s'.nodes.map Prod.fst).Nodup) ∧
      (oe = none →
        s'.queue.length + s.nodes.length = s.queue.length + s'.nodes.length ∧
        (s.nodes.length ≤ maxS → s'.nodes.length ≤ maxS) ∧
        ((2 ≤ s.nodes.length → s.totalBytes ≤ maxB) →
          (2 ≤ s'.nodes.length → s'.totalBytes ≤ maxB))) ∧
      (GoodLog s → WeakLog s' ∧ (oe = none → GoodLog s')) := by
  intro imps
  induction imps with
  | nil =>
    intro s s' oe h
    injection h with h1 h2
    subst h1
    subst h2
    refine ⟨by simp, fun k hk => hk, fun hn => hn, ?_, ?_⟩
    · intro _
      exact ⟨rfl, fun hb => hb, fun hb => hb⟩
    · intro hg
      exact ⟨⟨hg.1, hg.2.1⟩, fun _ => hg⟩
  | cons imp imps ih =>
    intro s s' oe h
    unfold processImports at h
    rcases hstep : stepImport oracle pv maxS maxB key base imp s with ⟨s2, oe2⟩
    rw [hstep] at h
    obtain ⟨st1, st2, st3, st4, st5⟩ := stepImport_spec oracle pv maxS maxB key base imp s s2 oe2 hstep
    cases oe2 with
    | some e =>
      simp only [] at h
      injection h with h1 h2
      subst h1
      subst h2
      refine ⟨st1, st2, st3, ?_, ?_⟩
      · intro hc
        exact absurd hc (by simp)
      · intro hg
        exact ⟨(st5 hg).1, fun hc => absurd hc (by simp)⟩
    | none =>
      simp only [] at h
      obtain ⟨p1, p2, p3, p4, p5⟩ := ih s2 s' oe h
      obtain ⟨eq1, bd1, byte1⟩ := st4 rfl
      refine ⟨p1, ?_, fun hn => p3 (st3 hn), ?_, ?_⟩
      · intro k hk
        exact p2 k (st2 k hk)
      · intro hoe
        obtain ⟨eq2, bd2, byte2⟩ := p4 hoe
        refine ⟨by omega, ?_, fun hb => byte2 (byte1 hb)⟩
        intro _
        exact bd2 bd1
      · intro hg
        have hg2 := (st5 hg).2 rfl
        exact ⟨(p5 hg2).1, fun hoe => (p5 hg2).2 hoe⟩

theorem bfsLoop_spec (oracle : List Char → Option (List Char))
    (pv : List (List Char × List Char)) (maxS maxB : Nat) :
    ∀ (fuel : Nat) (s s' : BfsState) (oe : Option Err),
      bfsLoop oracle pv maxS maxB fuel s = (s', oe) →
      (s.queue.length + maxS + 1 ≤ fuel + s.nodes.length → oe ≠ some .fuelExhausted) ∧
      (∀ k, hasKey s.nodes k = true → hasKey s'.nodes k = true) ∧
      ((s.nodes.map Prod.fst).Nodup → (s'.nodes.map Prod.fst).Nodup) ∧
      (oe = none →
        ((s.queue = [] → s.nodes.length ≤ maxS) → s'.nodes.length ≤ maxS) ∧
        ((2 ≤ s.nodes.length → s.totalBytes ≤ maxB) →
          (2 ≤ s'.nodes.length → s'.totalBytes ≤ maxB))) ∧
      (GoodLog s → WeakLog s' ∧ (oe = none → GoodLog s')) := by
  intro fuel
  induction fuel with
  | zero =>
    intro s s' oe h
    unfold bfsLoop at h
    rcases hq : s.queue with _ | ⟨key, rest⟩
    · rw [hq] at h
      simp only [] at h
      injection h with h1 h2
      subst h1
      subst h2
      refine ⟨by simp, fun k hk => hk, fun hn => hn, ?_, ?_⟩
      · intro _
        exact ⟨fun hb => hb rfl, fun hb => hb⟩
      · intro hg
        exact ⟨⟨hg.1, hg.2.1⟩, fun _ => hg⟩
    · rw [hq] at h
      simp only [] at h
      split at h
      · injection h with h1 h2
        subst h1
        subst h2
        refine ⟨by simp, fun k hk => hk, fun hn => hn, ?_, ?_⟩
        · intro hc
          exact absurd hc (by simp)
        · intro hg
          exact ⟨⟨hg.1, hg.2.1⟩, fun hc => absurd hc (by simp)⟩
      · injection h with h1 h2
        subst h1
        subst h2
        rename_i hsz
        refine ⟨?_, fun k hk => hk, fun hn => hn, ?_, ?_⟩
        · intro hge
          exfalso
          simp only [hq, List.length_cons] at hge
          omega
        · intro hc
          exact absurd hc (by simp)
        · intro hg
          exact ⟨⟨hg.1, hg.2.1⟩, fun hc => absurd hc (by simp)⟩
  | succ f ihf =>
    intro s s' oe h
    unfold bfsLoop at h
    rcases hq : s.queue with _ | ⟨key, rest⟩
    · rw [hq] at h
      simp only [] at h
      injection h with h1 h2
      subst h1
      subst h2
      refine ⟨by simp, fun k hk => hk, fun hn => hn, ?_, ?_⟩
      · intro _
        exact ⟨fun hb => hb rfl, fun hb => hb⟩
      · intro hg
        exact ⟨⟨hg.1, hg.2.1⟩, fun _ => hg⟩
    · rw [hq] at h
      simp only [] at h
      split at h
      · injection h with h1 h2
        subst h1
        subst h2
        refine ⟨by simp, fun k hk => hk, fun hn => hn, ?_, ?_⟩
        · intro hc
          exact absurd hc (by simp)
        · intro hg
          exact ⟨⟨hg.1, hg.2.1⟩, fun hc => absurd hc (by simp)⟩
      · rename_i hsz
        rcases hpi : processImports oracle pv maxS maxB key
            ((lookupAssoc s.nodes key).getD emptyNode).baseUrl
            (extractImportsWithRanges ((lookupAssoc s.nodes key).getD emptyNode).content)
            { s with queue := rest } with ⟨s2, oe2⟩
        rw [hpi] at h
        obtain ⟨p1, p2, p3, p4, p5⟩ := processImports_spec oracle pv maxS maxB key
          ((lookupAssoc s.nodes key).getD emptyNode).baseUrl
          (extractImportsWithRanges ((lookupAssoc s.nodes key).getD emptyNode).content)
          { s with queue := rest } s2 oe2 hpi
        cases oe2 with
        | some e =>
          simp only [] at h
          injection h with h1 h2
          subst h1
          subst h2
          refine ⟨fun _ => p1, p2, p3, ?_, ?_⟩
          · intro hc
            exact absurd hc (by simp)
          · intro hg
            exact ⟨(p5 hg).1, fun hc => absurd hc (by simp)⟩
        | none =>
          simp only [] at h
          obtain ⟨eq1, bd1, byte1⟩ := p4 rfl
          have eq1b : s2.queue.length + s.nodes.length = rest.length + s2.nodes.length := eq1
          have bd1b : s.nodes.length ≤ maxS → s2.nodes.length ≤ maxS := bd1
          have byte1b : (2 ≤ s.nodes.length → s.totalBytes ≤ maxB) →
              (2 ≤ s2.nodes.length → s2.totalBytes ≤ maxB) := byte1
          obtain ⟨b1, b2, b3, b4, b5⟩ := ihf s2 s' oe h
          have hs2n : s2.nodes.length ≤ maxS := bd1b (by omega)
          refine ⟨?_, fun k hk => b2 k (p2 k hk), fun hn => b3 (p3 hn), ?_, ?_⟩
          · intro hge
            apply b1
            simp only [List.length_cons] at hge
            omega
          · intro hoe
            obtain ⟨bd2, byte2⟩ := b4 hoe
            refine ⟨fun _ => bd2 (fun _ => hs2n), fun hb => byte2 (byte1 hb)⟩
          · intro hg
            have hg2 := (p5 hg).2 rfl
            exact ⟨(b5 hg2).1, fun hoe => (b5 hg2).2 hoe⟩

theorem buildGraph_spec (e k : List Char) (pv : List (List Char × List Char))
    (mS mB : Nat) (o : List Char → Option (List Char)) :
    (buildGraph e k pv mS mB o).2 ≠ some .fuelExhausted ∧
    (((buildGraph e k pv mS mB o).1.nodes.map Prod.fst).Nodup) ∧
    ((buildGraph e k pv mS mB o).1.log.Nodup) ∧
    (∀ u ∈ (buildGraph e k pv mS mB o).1.log, hostFromUrl u ∈ ALLOWED_HOSTS) ∧
    (hasKey (buildGraph e k pv mS mB o).1.nodes k = true) ∧
    ((buildGraph e k pv mS mB o).2 = none →
      (buildGraph e k pv mS mB o).1.nodes.length ≤ mS ∧
      (2 ≤ (buildGraph e k pv mS mB o).1.nodes.length →
        (buildGraph e k pv mS mB o).1.totalBytes ≤ mB)) := by
  rcases hbg : buildGraph e k pv mS mB o with ⟨s', oe⟩
  unfold buildGraph at hbg
  obtain ⟨b1, b2, b3, b4, b5⟩ :=
    bfsLoop_spec o pv mS mB (mS + 2) (initState e k) s' oe hbg
  have hg0 : GoodLog (initState e k) := by
    refine ⟨List.nodup_nil, ?_, ?_⟩ <;>
      · intro u hu
        exact absurd hu (List.not_mem_nil u)
  have hkeys0 : ((initState e k).nodes.map Prod.fst).Nodup := by
    show ([(k, _)].map Prod.fst).Nodup
    simp
  have hhk0 : hasKey (initState e k).nodes k = true := by
    show (if k = k then some _ else _).isSome = true
    rw [if_pos rfl]
    rfl
  obtain ⟨hw, hgf⟩ := b5 hg0
  refine ⟨?_, b3 hkeys0, hw.1, hw.2, b2 k hhk0, ?_⟩
  · apply b1
    show 1 + mS + 1 ≤ (mS + 2) + 1
    omega
  · intro hoe
    obtain ⟨bd, byte⟩ := b4 hoe
    constructor
    · apply bd
      intro hc
      exact absurd hc (by show ¬([k] = []); simp)
    · apply byte
      intro h2
      exact absurd h2 (by show ¬(2 ≤ 1); omega)

/-- Whether a specifier is relative (`./x` or `../x`). -/
def relSpecB (spec : List Char) : Bool :=
  ("./".toList).isPrefixOf spec || ("../".toList).isPrefixOf spec

theorem resolve_rel_nobase (raw : List Char) (pv : List (List Char × List Char))
    (h : relSpecB raw = true) :
    resolveImportPath raw none pv = .error (.noBaseContext raw) := by
  have h2 : ("./".toList).isPrefixOf raw = true ∨ ("../".toList).isPrefixOf raw = true := by
    have h3 := h
    unfold relSpecB at h3
    rw [Bool.or_eq_true] at h3
    exact h3
  have hconds : isHttp raw = false ∧ ("github:".toList).isPrefixOf raw = false ∧
      ("npm:".toList).isPrefixOf raw = false ∧ firstNonDotSlash raw = false := by
    rcases h2 with h2 | h2
    · obtain ⟨t, ht⟩ := List.isPrefixOf_iff_prefix.1 h2
      rw [← ht]
      exact ⟨rfl, rfl, rfl, rfl⟩
    · obtain ⟨t, ht⟩ := List.isPrefixOf_iff_prefix.1 h2
      rw [← ht]
      exact ⟨rfl, rfl, rfl, rfl⟩
  obtain ⟨hc1, hc2, hc3, hc4⟩ := hconds
  unfold resolveImportPath
  rw [hc1, hc2, hc3, hc4]
  simp only [Bool.false_eq_true, if_false, Bool.or_self]
  unfold resolveRelativeBranch
  rw [show (("./".toList).isPrefixOf raw || ("../".toList).isPrefixOf raw) = true from h]
  simp only [if_true]

theorem processImports_rel (oracle : List Char → Option (List Char))
    (pv : List (List Char × List Char)) (maxS maxB : Nat) (key : List Char) :
    ∀ (imps : List ImportMatch) (s : BfsState),
      (∃ imp ∈ imps, relSpecB imp.spec = true) →
      ∃ e, (processImports oracle pv maxS maxB key none imps s).2 = some e := by
  intro imps
  induction imps with
  | nil =>
    intro s h
    rcases h with ⟨imp, hm, _⟩
    exact absurd hm (List.not_mem_nil _)
  | cons imp imps ih =>
    intro s h
    unfold processImports
    rcases hstep : stepImport oracle pv maxS maxB key none imp s with ⟨s2, oe2⟩
    cases oe2 with
    | some e => exact ⟨e, rfl⟩
    | none =>
      rcases h with ⟨impw, hmem, hrel⟩
      rcases List.mem_cons.1 hmem with heq | hmem2
      · exfalso
        have hres := resolve_rel_nobase impw.spec pv hrel
        rw [← heq] at hstep
        unfold stepImport at hstep
        rw [hres] at hstep
        injection hstep with h1 h2
        exact Option.noConfusion h2
      · exact ih s2 ⟨impw, hmem2, hrel⟩

theorem bfsLoop_rel_error (oracle : List Char → Option (List Char))
    (pv : List (List Char × List Char)) (maxS maxB : Nat) (fuel : Nat)
    (s : BfsState) (key : List Char) (rest : List (List Char))
    (hq : s.queue = key :: rest)
    (hbase : ((lookupAssoc s.nodes key).getD emptyNode).baseUrl = none)
    (hrel : ∃ imp ∈ extractImportsWithRanges
        ((lookupAssoc s.nodes key).getD emptyNode).content, relSpecB imp.spec = true) :
    ∃ e, (bfsLoop oracle pv maxS maxB fuel s).2 = some e := by
  unfold bfsLoop
  rw [hq]
  simp only []
  split
  · exact ⟨_, rfl⟩
  · cases fuel with
    | zero => exact ⟨_, rfl⟩
    | succ f =>
      rw [hbase]
      obtain ⟨e, he⟩ := processImports_rel oracle pv maxS maxB key
        (extractImportsWithRanges ((lookupAssoc s.nodes key).getD emptyNode).content)
        { s with queue := rest } hrel
      rcases hpi : processImports oracle pv maxS maxB key none
          (extractImportsWithRanges ((lookupAssoc s.nodes key).getD emptyNode).content)
          { s with queue := rest } with ⟨s2, oe2⟩
      rw [hpi] at he
      simp only [] at he
      subst he
      exact ⟨e, rfl⟩

theorem findSubstr_append_ne_none (a pat b : List Char) :
    findSubstr (a ++ (pat ++ b)) pat ≠ none := by
  induction a with
  | nil =>
    show findSubstr (pat ++ b) pat ≠ none
    unfold findSubstr
    rw [show pat.isPrefixOf (pat ++ b) = true from List.isPrefixOf_iff_prefix.2 ⟨b, rfl⟩]
    simp
  | cons c a ih =>
    show findSubstr (c :: (a ++ (pat ++ b))) pat ≠ none
    unfold findSubstr
    split
    · simp
    · simp only []
      cases hf : findSubstr (a ++ (pat ++ b)) pat with
      | none => exact absurd hf ih
      | some i => simp [hf]

theorem replaceFirst_some (s pat rep : List Char) (i : Nat)
    (h : findSubstr s pat = some i) :
    replaceFirst s pat rep =
      s.take i ++ getSubstitution rep pat (s.take i) (s.drop (i + pat.length)) ++
        s.drop (i + pat.length) := by
  unfold replaceFirst
  rw [h]

theorem getSubstitution_no_dollar (matched before after : List Char) :
    ∀ rep : List Char, '$' ∉ rep →
      getSubstitution rep matched before after = rep := by
  intro rep
  induction rep with
  | nil => intro _; rfl
  | cons c r ih =>
    intro h
    have hc : ¬(c = '$') := fun he => h (by rw [he]; exact List.mem_cons_self _ _)
    have hr : '$' ∉ r := fun hm => h (List.mem_cons_of_mem _ hm)
    unfold getSubstitution
    rw [if_neg hc, ih hr]

theorem rewriteContent_single (text a tail spec rk : List Char) (q : Char)
    (children : List (List Char × List Char)) (start stop : Nat)
    (himps : extractImportsWithRanges text = [⟨start, stop, spec⟩])
    (hslice : (text.drop start).take (stop - start) = a ++ q :: (spec ++ q :: tail))
    (hfind : findSubstr (a ++ q :: (spec ++ q :: tail)) spec = some (a.length + 1))
    (hch : lookupAssoc children spec = some rk) (hd : '$' ∉ rk) :
    rewriteContent text children =
      text.take start ++ (a ++ q :: (rk ++ q :: tail)) ++ text.drop stop := by
  unfold rewriteContent
  rw [himps]
  show applyRewrite children text ⟨start, stop, spec⟩ = _
  unfold applyRewrite
  rw [show (⟨start, stop, spec⟩ : ImportMatch).spec = spec from rfl, hch]
  simp only []
  rw [hslice]
  rw [replaceFirst_some _ _ rk _ hfind]
  rw [getSubstitution_no_dollar _ _ _ rk hd]
  have h1 : (a ++ q :: (spec ++ q :: tail)).take (a.length + 1) = a ++ [q] := by
    rw [show a ++ q :: (spec ++ q :: tail) = (a ++ [q]) ++ (spec ++ q :: tail) by simp]
    exact List.take_left' (by simp)
  have h2 : (a ++ q :: (spec ++ q :: tail)).drop (a.length + 1 + spec.length) = q :: tail := by
    rw [show a ++ q :: (spec ++ q :: tail) = ((a ++ [q]) ++ spec) ++ (q :: tail) by simp]
    refine List.drop_left' ?_
    simp
    omega
  rw [h1, h2]
  simp

theorem resolveAllSources_ok_shape (e k : List Char)
    (pv : List (List Char × List Char)) (mS mB : Nat)
    (o : List Char → Option (List Char)) (doc : List (List Char × List Char))
    (h : resolveAllSources e k pv mS mB o = .ok doc) :
    (buildGraph e k pv mS mB o).2 = none ∧
    doc = (buildGraph e k pv mS mB o).1.nodes.map
      (fun kn => (kn.1, rewriteContent kn.2.content kn.2.children)) := by
  unfold resolveAllSources at h
  rcases hbg : buildGraph e k pv mS mB o with ⟨s', oe⟩
  rw [hbg] at h
  cases oe with
  | some e2 => exact absurd h (by simp)
  | none =>
    simp only [] at h
    injection h with h2
    exact ⟨rfl, h2.symm⟩

theorem compileHandler_ok_shape (source filename : Option (List Char))
    (pv : List (List Char × List Char)) (oracle : List Char → Option (List Char))
    (defaultName : List Char) (loadErr compileErr : Option Err) (hasError : Bool)
    (succ : Bool) (fn : List Char) (files : List (List Char))
    (h : (compileHandler source filename pv oracle defaultName loadErr
        compileErr hasError).resp = .okResp succ fn files) :
    fn = safeNameOf filename defaultName ∧
    ∃ src doc, source = some src ∧
      resolveAllSources src (safeNameOf filename defaultName) pv MAX_SOURCES
        MAX_TOTAL_BYTES oracle = .ok doc ∧
      files = doc.map Prod.fst := by
  unfold compileHandler at h
  cases source with
  | none => exact absurd h (by simp)
  | some src =>
    simp only [] at h
    split at h
    · exact absurd h (by simp)
    · cases hres : resolveAllSources src (safeNameOf filename defaultName) pv
          MAX_SOURCES MAX_TOTAL_BYTES oracle with
      | error e =>
        rw [hres] at h
        simp only [] at h
        exact absurd h (by simp)
      | ok doc =>
        rw [hres] at h
        simp only [] at h
        cases loadErr with
        | some e2 =>
          simp only [] at h
          exact absurd h (by simp)
        | none =>
          simp only [] at h
          cases compileErr with
          | some e3 =>
            simp only [] at h
            exact absurd h (by simp)
          | none =>
            simp only [] at h
            injection h with hv1 hv2 hv3
            exact ⟨hv2.symm, src, doc, rfl, hres, hv3.symm⟩

/-! ### Concrete instances used in the claim theorems -/

/-- A network on which every retrieval fails; runs that perform no successful
fetch are independent of it. -/
def oracleNone : List Char → Option (List Char) := fun _ => none

/-- Entry importing a URL on a host outside the allow-list. -/
def exEntryEvil : List Char := ("import \"https://evil.example/x.sol\";".toList)

/-- Entry with one GitHub-shorthand import. -/
def exEntryGh : List Char :=
  ("import \"github:o/r@v1/a.sol\"; contract E \x7b\x7d".toList)

/-- Canonical URL the GitHub shorthand expands to. -/
def exUrlGh : List Char := ("https://raw.githubusercontent.com/o/r/v1/a.sol".toList)

/-- Remote content for the GitHub example. -/
def exOracleGh : List Char → Option (List Char) := fun u =>
  if u = exUrlGh then some ("contract A \x7b\x7d".toList) else none

/-- The two-node document the GitHub example resolves to. -/
def exDocGh : List (List Char × List Char) :=
  [(("E.sol".toList),
    ("import \"https://raw.githubusercontent.com/o/r/v1/a.sol\"; contract E \x7b\x7d".toList)),
   (exUrlGh, ("contract A \x7b\x7d".toList))]

/-- Mutual-import example: the entry pulls in `a.sol`, which imports `b.sol`,
which imports `a.sol` back. -/
def exUrlMutA : List Char := ("https://unpkg.com/m@1.0.0/a.sol".toList)

/-- Second node of the mutual-import pair. -/
def exUrlMutB : List Char := ("https://unpkg.com/m@1.0.0/b.sol".toList)

/-- Content of `a.sol`: imports `b.sol`. -/
def exContentMutA : List Char := ("import \"https://unpkg.com/m@1.0.0/b.sol\";".toList)

/-- Content of `b.sol`: imports `a.sol` back. -/
def exContentMutB : List Char := ("import \"https://unpkg.com/m@1.0.0/a.sol\";".toList)

/-- Entry of the mutual-import example. -/
def exEntryMut : List Char :=
  ("import \"https://unpkg.com/m@1.0.0/a.sol\";\ncontract E \x7b\x7d".toList)

/-- Network of the mutual-import example. -/
def exOracleMut : List Char → Option (List Char) := fun u =>
  if u = exUrlMutA then some exContentMutA
  else if u = exUrlMutB then some exContentMutB
  else none

/-- The document the mutual-import example resolves to: three nodes. -/
def exDocMut : List (List Char × List Char) :=
  [(("E.sol".toList), exEntryMut), (exUrlMutA, exContentMutA), (exUrlMutB, exContentMutB)]

/-- Self-import example: the fetched file imports its own canonical URL. -/
def exUrlSelf : List Char := ("https://unpkg.com/s@1.0.0/s.sol".toList)

/-- Content of the self-importing file. -/
def exContentSelf : List Char :=
  ("import \"https://unpkg.com/s@1.0.0/s.sol\";\ncontract S \x7b\x7d".toList)

/-- Entry of the self-import example. -/
def exEntrySelf : List Char :=
  ("import \"https://unpkg.com/s@1.0.0/s.sol\";\ncontract E \x7b\x7d".toList)

/-- Network of the self-import example. -/
def exOracleSelf : List Char → Option (List Char) := fun u =>
  if u = exUrlSelf then some exContentSelf else none

/-- Entry whose import statement mentions the specifier text inside a comment
before the quoted specifier. -/
def exEntryCmt : List Char :=
  ("import /* p/q.sol */ \x7bQ\x7d from \"p/q.sol\";\ncontract E \x7b\x7d".toList)

/-- Canonical URL `p/q.sol` resolves to with version `1.0.0`. -/
def exUrlP : List Char := ("https://unpkg.com/p@1.0.0/q.sol".toList)

/-- Network for the comment example. -/
def exOracleP : List Char → Option (List Char) := fun u =>
  if u = exUrlP then some ("contract Q \x7b\x7d".toList) else none

/-- Package pin for `p`. -/
def exPvP : List (List Char × List Char) := [(("p".toList), ("1.0.0".toList))]

/-- What the rewrite actually produces on `exEntryCmt`: the occurrence inside
the comment is replaced, the quoted specifier is left as-is. -/
def exCmtActual : List Char :=
  ("import /* https://unpkg.com/p@1.0.0/q.sol */ \x7bQ\x7d from \"p/q.sol\";\ncontract E \x7b\x7d".toList)

/-- What the claim says the rewrite should produce on `exEntryCmt`: exactly
the quoted specifier replaced. -/
def exCmtClaimed : List Char :=
  ("import /* p/q.sol */ \x7bQ\x7d from \"https://unpkg.com/p@1.0.0/q.sol\";\ncontract E \x7b\x7d".toList)

/-- Entry with two bare package imports whose canonical keys are longer than
the specifiers, so the first statement's offsets change when the second is
rewritten. -/
def exEntryTwo : List Char :=
  ("import \"a/x.sol\";\nimport \"b/y.sol\";\ncontract E \x7b\x7d".toList)

/-- Package pins for the two-import example. -/
def exPvTwo : List (List Char × List Char) :=
  [(("a".toList), ("1.0.0".toList)), (("b".toList), ("2.0.0".toList))]

/-- First canonical URL of the two-import example. -/
def exUrlTwoA : List Char := ("https://unpkg.com/a@1.0.0/x.sol".toList)

/-- Second canonical URL of the two-import example. -/
def exUrlTwoB : List Char := ("https://unpkg.com/b@2.0.0/y.sol".toList)

/-- Network of the two-import example. -/
def exOracleTwo : List Char → Option (List Char) := fun u =>
  if u = exUrlTwoA then some ("contract A \x7b\x7d".toList)
  else if u = exUrlTwoB then some ("contract B \x7b\x7d".toList)
  else none

/-- Document of the two-import example: both quoted specifiers replaced
exactly, nothing else changed. -/
def exDocTwo : List (List Char × List Char) :=
  [(("E.sol".toList),
    ("import \"https://unpkg.com/a@1.0.0/x.sol\";\nimport \"https://unpkg.com/b@2.0.0/y.sol\";\ncontract E \x7b\x7d".toList)),
   (exUrlTwoA, ("contract A \x7b\x7d".toList)),
   (exUrlTwoB, ("contract B \x7b\x7d".toList))]

/-- A canonical URL containing the `$&` substitution pattern: allow-listed
host, passes the regex, unchanged by URL serialization. -/
def exUrlDollar : List Char := ("https://unpkg.com/a$&b.sol").toList

/-- Entry file whose single import resolves to [exUrlDollar]. -/
def exEntryDollar : List Char :=
  ("import \"https://unpkg.com/a$&b.sol\";").toList

/-- Content served at [exUrlDollar]. -/
def exContentDollar : List Char := ("contract D \x7b\x7d").toList

/-- Network of the dollar-key example. -/
def exOracleDollar : List Char → Option (List Char) := fun u =>
  if u = exUrlDollar then some exContentDollar else none

/-- The entry statement after rewriting: because the canonical key contains
`$&`, JS `$`-substitution splices the matched specifier into the key, so the
statement is mangled rather than left unchanged (the key equals the
specifier here, so exact replacement would be the identity). -/
def exDollarMangled : List Char :=
  ("import \"https://unpkg.com/ahttps://unpkg.com/a$&b.solb.sol\";").toList

/-- Document of the dollar-key example. -/
def exDocDollar : List (List Char × List Char) :=
  [(("E.sol".toList), exDollarMangled), (exUrlDollar, exContentDollar)]

/-- Entry containing a relative import (which has no base context). -/
def exEntryRel : List Char := ("import \"./x.sol\"; contract C \x7b\x7d".toList)

/-- A fixed stand-in for the generated `Contract_<uuid>.sol` default name. -/
def exDefaultName : List Char := ("Contract_00000000.sol".toList)

/-- Single-import text for the exact-rewrite instance. -/
def exTextSingle : List Char :=
  ("import \x7bT\x7d from \"p/q.sol\"; contract C \x7b\x7d".toList)

/-- The part of the matched statement before the opening quote. -/
def exASingle : List Char := ("import \x7bT\x7d from ".toList)

/-- The part of the matched statement after the closing quote. -/
def exTailSingle : List Char := (";".toList)

/-- Child mapping for the single-import instance. -/
def exChildrenSingle : List (List Char × List Char) := [(("p/q.sol".toList), exUrlP)]

/-- Exact-rewrite output on `exTextSingle`. -/
def exSingleResult : List Char :=
  ("import \x7bT\x7d from \"https://unpkg.com/p@1.0.0/q.sol\"; contract C \x7b\x7d".toList)

/-! ### Claim theorems -/

/-- C1 counterexample: the claim says every successfully returned document
has at most `maxBytes` cumulative content bytes, but an entry file whose own
size already exceeds `maxBytes` and which has no imports resolves
successfully: with `maxBytes = 1` the two-byte entry `ab` yields a document
(`totalBytes` is never checked against the ceiling before the first fetch). -/
theorem c1_counterexample :
    resolveAllSources ("ab".toList) ("E.sol".toList) [] 64 1 oracleNone
      = .ok [(("E.sol".toList), ("ab".toList))] ∧
    1 < utf8Len ("ab".toList) :=
  ⟨rfl, by decide⟩

/-- C1 (amended): exceeding a ceiling aborts immediately with the
corresponding resource-limit error, and no partial document is returned.
In order: (1) success-side bounds — every successfully returned document has
at most `maxSources` entries, and the running byte total (entry bytes plus
fetched bytes, measured before rewriting) is at most `maxBytes` whenever the
document has at least two entries (the entry file's own size is counted but
never itself checked, so a single-entry document may exceed `maxBytes`);
(2) a fetch that pushes the running total past `maxBytes` makes the step
throw `TotalBytesExceeded maxBytes` right there; (3) otherwise an insertion
pushing the node count past `maxSources` throws `TooManySources maxSources`;
(4) any traversal error makes `resolveAllSources` return that error — never
a partial document; (5) concretely, with `maxSources = 1` a one-import entry
fails with `TooManySources 1`, whose message names the configured value;
(6) with `maxBytes = 30` a two-import entry fails with
`TotalBytesExceeded 30` after fetching only the first URL — the second is
never contacted — and the message names the configured value. -/
theorem c1_limits_amended :
    (∀ (entry key : List Char) (pv : List (List Char × List Char))
        (maxS maxB : Nat) (oracle : List Char → Option (List Char))
        (doc : List (List Char × List Char)),
        resolveAllSources entry key pv maxS maxB oracle = .ok doc →
        doc.length ≤ maxS ∧
        (2 ≤ doc.length →
          (buildGraph entry key pv maxS maxB oracle).1.totalBytes ≤ maxB)) ∧
    (∀ (oracle : List Char → Option (List Char))
        (pv : List (List Char × List Char)) (maxS maxB : Nat)
        (key : List Char) (base : Option (List Char)) (imp : ImportMatch)
        (s : BfsState) (resolved txt : List Char)
        (cache2 : List (List Char × List Char)) (log2 : List (List Char)),
        resolveImportPath imp.spec base pv = .ok resolved →
        hasKey s.nodes resolved = false →
        fetchText resolved s.cache s.log oracle = (some txt, cache2, log2) →
        maxB < s.totalBytes + utf8Len txt →
        (stepImport oracle pv maxS maxB key base imp s).2
          = some (.totalBytesExceeded maxB)) ∧
    (∀ (oracle : List Char → Option (List Char))
        (pv : List (List Char × List Char)) (maxS maxB : Nat)
        (key : List Char) (base : Option (List Char)) (imp : ImportMatch)
        (s : BfsState) (resolved txt : List Char)
        (cache2 : List (List Char × List Char)) (log2 : List (List Char)),
        resolveImportPath imp.spec base pv = .ok resolved →
        hasKey s.nodes resolved = false →
        fetchText resolved s.cache s.log oracle = (some txt, cache2, log2) →
        ¬ maxB < s.totalBytes + utf8Len txt →
        maxS < s.nodes.length + 1 →
        (stepImport oracle pv maxS maxB key base imp s).2
          = some (.tooManySources maxS)) ∧
    (∀ (entry key : List Char) (pv : List (List Char × List Char))
        (maxS maxB : Nat) (oracle : List Char → Option (List Char))
        (s2 : BfsState) (e : Err),
        buildGraph entry key pv maxS maxB oracle = (s2, some e) →
        resolveAllSources entry key pv maxS maxB oracle = .error e) ∧
    (resolveAllSources exEntryGh ("E.sol".toList) [] 1 1500000 exOracleGh
        = .error (.tooManySources 1) ∧
      errMessage (.tooManySources 1) = ("Too many source files (> 1)".toList)) ∧
    (resolveAllSources exEntryTwo ("E.sol".toList) exPvTwo 64 30 exOracleTwo
        = .error (.totalBytesExceeded 30) ∧
      (buildGraph exEntryTwo ("E.sol".toList) exPvTwo 64 30 exOracleTwo).1.log
        = [exUrlTwoA] ∧
      errMessage (.totalBytesExceeded 30)
        = ("Total import size exceeded (30 bytes)".toList)) := by
  refine ⟨?_, stepImport_byte_trip, stepImport_count_trip,
    buildGraph_error_propagates, ⟨rfl, rfl⟩, ⟨rfl, rfl, rfl⟩⟩
  intro entry key pv maxS maxB oracle doc h
  obtain ⟨hoe, hdoc⟩ := resolveAllSources_ok_shape entry key pv maxS maxB oracle doc h
  obtain ⟨-, -, -, -, -, hbounds⟩ := buildGraph_spec entry key pv maxS maxB oracle
  obtain ⟨hb1, hb2⟩ := hbounds hoe
  rw [hdoc, List.length_map]
  exact ⟨hb1, hb2⟩

/-- C1 witness: the success-side bounds at a concrete two-node resolution,
and the byte-ceiling trip at a concrete over-budget step. -/
theorem c1_limits_amended_witness :
    (resolveAllSources exEntryGh ("E.sol".toList) [] 64 1500000 exOracleGh
        = .ok exDocGh ∧
      (exDocGh.length ≤ 64 ∧
        (2 ≤ exDocGh.length →
          (buildGraph exEntryGh ("E.sol".toList) [] 64 1500000 exOracleGh).1.totalBytes
            ≤ 1500000))) ∧
    (stepImport exOracleTwo exPvTwo 64 30 ("E.sol".toList) none
        ⟨0, 17, ("a/x.sol".toList)⟩ (initState exEntryTwo ("E.sol".toList))).2
      = some (.totalBytesExceeded 30) :=
  ⟨⟨rfl, c1_limits_amended.1 exEntryGh ("E.sol".toList) [] 64 1500000 exOracleGh
      exDocGh rfl⟩,
    c1_limits_amended.2.1 exOracleTwo exPvTwo 64 30 ("E.sol".toList) none
      ⟨0, 17, ("a/x.sol".toList)⟩ (initState exEntryTwo ("E.sol".toList))
      exUrlTwoA ("contract A \x7b\x7d".toList)
      [(exUrlTwoA, ("contract A \x7b\x7d".toList))] [exUrlTwoA]
      rfl rfl rfl (by decide)⟩

/-- C2: every URL recorded in the fetch log of a traversal has an
allow-listed host (so no network access to a disallowed URL is ever
performed); every specifier the resolver accepts resolves to an allow-listed
host; any candidate URL with a disallowed host fails the guard with exactly
`DisallowedHost`; and concretely, an entry importing
`https://evil.example/x.sol` fails with `DisallowedHost evil.example` with
an empty fetch log — the host check precedes any fetch. -/
theorem c2_host_allowlist :
    (∀ (entry key : List Char) (pv : List (List Char × List Char))
        (maxS maxB : Nat) (oracle : List Char → Option (List Char))
        (u : List Char),
        u ∈ (buildGraph entry key pv maxS maxB oracle).1.log →
        hostFromUrl u ∈ ALLOWED_HOSTS) ∧
    (∀ (raw : List Char) (base : Option (List Char))
        (pv : List (List Char × List Char)) (u : List Char),
        resolveImportPath raw base pv = .ok u → hostFromUrl u ∈ ALLOWED_HOSTS) ∧
    (∀ url : List Char, hostFromUrl url ∉ ALLOWED_HOSTS →
        allowedGuard url = .error (.disallowedHost (hostFromUrl url))) ∧
    (buildGraph exEntryEvil ("E.sol".toList) [] 64 1500000 oracleNone).2
      = some (.disallowedHost ("evil.example".toList)) ∧
    (buildGraph exEntryEvil ("E.sol".toList) [] 64 1500000 oracleNone).1.log = [] := by
  refine ⟨?_, ?_, ?_, rfl, rfl⟩
  · intro entry key pv maxS maxB oracle u hu
    exact (buildGraph_spec entry key pv maxS maxB oracle).2.2.2.1 u hu
  · intro raw base pv u h
    exact resolveImportPath_ok_allowed h
  · intro url h
    unfold allowedGuard
    rw [if_neg h]

/-- C2 witness: the successful GitHub-shorthand resolution lands on an
allow-listed host, and the URL actually fetched in that run is allow-listed. -/
theorem c2_host_allowlist_witness :
    hostFromUrl exUrlGh ∈ ALLOWED_HOSTS ∧ hostFromUrl exUrlGh ∈ ALLOWED_HOSTS :=
  ⟨c2_host_allowlist.1 exEntryGh ("E.sol".toList) [] 64 1500000 exOracleGh exUrlGh
      (by decide),
    c2_host_allowlist.2.1 ("github:o/r@v1/a.sol".toList) none [] exUrlGh rfl⟩

/-- The mutual-import run succeeds and returns a document whose keys are the
entry plus the two mutually-importing files: three entries. -/
theorem exMutDoc_facts :
    ∃ doc, resolveAllSources exEntryMut ("E.sol".toList) [] 64 1500000 exOracleMut
        = .ok doc ∧
      doc.map Prod.fst = [("E.sol".toList), exUrlMutA, exUrlMutB] ∧
      doc.length = 3 := by
  have hoe : (buildGraph exEntryMut ("E.sol".toList) [] 64 1500000 exOracleMut).2
      = none := rfl
  have hkeys : ((buildGraph exEntryMut ("E.sol".toList) [] 64 1500000
      exOracleMut).1.nodes.map Prod.fst)
      = [("E.sol".toList), exUrlMutA, exUrlMutB] := rfl
  rcases hbg : buildGraph exEntryMut ("E.sol".toList) [] 64 1500000 exOracleMut
    with ⟨s2, oe⟩
  rw [hbg] at hoe hkeys
  simp only [] at hoe hkeys
  subst hoe
  have hlen : s2.nodes.length = 3 := by
    have h2 := congrArg List.length hkeys
    rwa [List.length_map] at h2
  refine ⟨s2.nodes.map (fun kn => (kn.1, rewriteContent kn.2.content kn.2.children)),
    ?_, ?_, ?_⟩
  · unfold resolveAllSources
    rw [hbg]
  · rw [List.map_map]
    exact hkeys
  · rw [List.length_map]
    exact hlen

/-- C4 counterexample: two files that import each other do not produce a
two-node document — the successfully returned document also contains the
entry, so it has three entries, not two. -/
theorem c4_counterexample :
    ∃ doc, resolveAllSources exEntryMut ("E.sol".toList) [] 64 1500000 exOracleMut
        = .ok doc ∧
      doc.map Prod.fst = [("E.sol".toList), exUrlMutA, exUrlMutB] ∧
      doc.length ≠ 2 := by
  obtain ⟨doc, h1, h2, h3⟩ := exMutDoc_facts
  exact ⟨doc, h1, h2, by omega⟩

set_option maxHeartbeats 1600000 in
/-- C4 (amended): the traversal always terminates (the fuel embedding of the
`while` loop is never exhausted), each canonical key is enqueued at most
once (the node keys are duplicate-free, and a specifier resolving to an
already-present key only records an edge); a remote file importing itself
yields a two-node document, and two remote files importing each other yield
one node each — a three-node document counting the entry — rather than
infinite recursion. -/
theorem c4_termination_amended :
    (∀ (entry key : List Char) (pv : List (List Char × List Char))
        (maxS maxB : Nat) (oracle : List Char → Option (List Char)),
        (buildGraph entry key pv maxS maxB oracle).2 ≠ some .fuelExhausted) ∧
    (∀ (entry key : List Char) (pv : List (List Char × List Char))
        (maxS maxB : Nat) (oracle : List Char → Option (List Char)),
        (((buildGraph entry key pv maxS maxB oracle).1.nodes).map Prod.fst).Nodup) ∧
    (resolveAllSources exEntrySelf ("E.sol".toList) [] 64 1500000 exOracleSelf
      = .ok [(("E.sol".toList), exEntrySelf), (exUrlSelf, exContentSelf)]) ∧
    (∃ doc, resolveAllSources exEntryMut ("E.sol".toList) [] 64 1500000 exOracleMut
        = .ok doc ∧ doc.length = 3) := by
  refine ⟨?_, ?_, rfl, ?_⟩
  · intro e k pv mS mB o
    exact (buildGraph_spec e k pv mS mB o).1
  · intro e k pv mS mB o
    exact (buildGraph_spec e k pv mS mB o).2.1
  · obtain ⟨doc, h1, -, h3⟩ := exMutDoc_facts
    exact ⟨doc, h1, h3⟩

/-- C4 witness: the termination and no-re-enqueue facts at the
mutual-import instance. -/
theorem c4_termination_amended_witness :
    (buildGraph exEntryMut ("E.sol".toList) [] 64 1500000 exOracleMut).2
      ≠ some .fuelExhausted ∧
    (((buildGraph exEntryMut ("E.sol".toList) [] 64 1500000 exOracleMut).1.nodes).map
        Prod.fst).Nodup :=
  ⟨c4_termination_amended.1 exEntryMut ("E.sol".toList) [] 64 1500000 exOracleMut,
    c4_termination_amended.2.1 exEntryMut ("E.sol".toList) [] 64 1500000 exOracleMut⟩

/-- C5: within one resolution request no URL is retrieved from the network
more than once — the request's fetch log (which records every network
access, including on failing runs) never contains a duplicate. -/
theorem c5_fetch_at_most_once (entry key : List Char)
    (pv : List (List Char × List Char)) (maxS maxB : Nat)
    (oracle : List Char → Option (List Char)) :
    ((buildGraph entry key pv maxS maxB oracle).1.log).Nodup :=
  (buildGraph_spec entry key pv maxS maxB oracle).2.2.1

/-- C5 witness: the mutual-import run, whose two distinct URLs are each
fetched exactly once. -/
theorem c5_fetch_at_most_once_witness :
    ((buildGraph exEntryMut ("E.sol".toList) [] 64 1500000 exOracleMut).1.log).Nodup :=
  c5_fetch_at_most_once exEntryMut ("E.sol".toList) [] 64 1500000 exOracleMut

/-- C10: resolution is deterministic — two runs with the same entry content,
entry key, package pins and ceilings, against remotes serving the same
content per URL, return identical documents. -/
theorem c10_deterministic (entry key : List Char)
    (pv : List (List Char × List Char)) (maxS maxB : Nat)
    (o1 o2 : List Char → Option (List Char)) (h : ∀ u, o1 u = o2 u) :
    resolveAllSources entry key pv maxS maxB o1
      = resolveAllSources entry key pv maxS maxB o2 := by
  have ho : o1 = o2 := funext h
  rw [ho]

/-- C10 witness: determinism applied at a concrete run against two
pointwise-equal networks. -/
theorem c10_deterministic_witness :
    resolveAllSources exEntryGh ("E.sol".toList) [] 64 1500000 exOracleGh
      = resolveAllSources exEntryGh ("E.sol".toList) [] 64 1500000
          (fun u => if u = exUrlGh then some ("contract A \x7b\x7d".toList) else none) :=
  c10_deterministic exEntryGh ("E.sol".toList) [] 64 1500000 exOracleGh
    (fun u => if u = exUrlGh then some ("contract A \x7b\x7d".toList) else none)
    (fun _ => rfl)

/-- C3 counterexample: when import resolution throws (here: a relative
entry-file import), the handler's catch branch responds without removing
the temp directory it created — cleanup is not on this exit path. -/
theorem c3_counterexample :
    compileHandler (some exEntryRel) (some ("C.sol".toList)) [] oracleNone
        exDefaultName none none false
      = { tmpCreated := true, tmpRemoved := false,
          resp := .errorResp (.noBaseContext ("./x.sol".toList)) } :=
  rfl

/-- C3 (amended): the temp directory is removed exactly on the
successful-completion path — `tmpRemoved` holds iff the handler reaches the
200 `base` response; on every thrown-error path (import resolution, compiler
loading, compilation) the directory is created but not removed. -/
theorem c3_cleanup_amended (source filename : Option (List Char))
    (pv : List (List Char × List Char)) (oracle : List Char → Option (List Char))
    (defaultName : List Char) (loadErr compileErr : Option Err) (hasError : Bool) :
    (compileHandler source filename pv oracle defaultName loadErr compileErr
        hasError).tmpRemoved = true ↔
      ∃ succ fn files,
        (compileHandler source filename pv oracle defaultName loadErr compileErr
          hasError).resp = .okResp succ fn files := by
  unfold compileHandler
  cases source with
  | none => simp
  | some src =>
    simp only []
    split
    · simp
    · cases hres : resolveAllSources src (safeNameOf filename defaultName) pv
          MAX_SOURCES MAX_TOTAL_BYTES oracle with
      | error e => simp
      | ok doc =>
        cases loadErr with
        | some e2 => simp
        | none =>
          cases compileErr with
          | some e3 => simp
          | none =>
            refine iff_of_true rfl ⟨!hasError, safeNameOf filename defaultName,
              doc.map (fun kv => kv.1), rfl⟩

/-- C3 witness: the cleanup characterisation at a concrete successful
request. -/
theorem c3_cleanup_amended_witness :
    (compileHandler (some ("contract C \x7b\x7d".toList)) (some ("C.sol".toList))
        [] oracleNone exDefaultName none none false).tmpRemoved = true ↔
      ∃ succ fn files,
        (compileHandler (some ("contract C \x7b\x7d".toList)) (some ("C.sol".toList))
          [] oracleNone exDefaultName none none false).resp = .okResp succ fn files :=
  c3_cleanup_amended (some ("contract C \x7b\x7d".toList)) (some ("C.sol".toList))
    [] oracleNone exDefaultName none none false

/-- C6 counterexample: the rewrite does not replace exactly the quoted
specifier — `String.replace` substitutes the first occurrence of the
specifier text inside the matched statement, so when the specifier text also
occurs earlier (here in a comment), the comment is rewritten and the quoted
specifier is left untouched. -/
theorem c6_counterexample :
    resolveAllSources exEntryCmt ("E.sol".toList) exPvP 64 1500000 exOracleP
      = .ok [(("E.sol".toList), exCmtActual), (exUrlP, ("contract Q \x7b\x7d".toList))] ∧
    exCmtActual ≠ exCmtClaimed :=
  ⟨rfl, by decide⟩

/-- C6 (amended): within each matched import statement the rewrite inserts
the canonical key at the first occurrence of the specifier text via JS
`String.prototype.replace`, which applies `$`-substitution to the key
(matches are processed from last to first so earlier offsets stay valid).
When the key contains no `$` and the quoted specifier is that first
occurrence, exactly the quoted substring is replaced and all surrounding
syntax is unchanged — shown in general for a single-import node, and
concretely for a two-import file whose two quoted specifiers are both
replaced exactly even though the rewrites change lengths. When the key does
contain a `$`-pattern, the statement is mangled: an allow-listed key
containing `$&` (equal to its own specifier, so exact replacement would
change nothing) yields a rewritten statement differing from the
original. -/
theorem c6_rewrite_amended :
    (∀ (text a tail spec rk : List Char) (q : Char)
        (children : List (List Char × List Char)) (start stop : Nat),
        extractImportsWithRanges text = [⟨start, stop, spec⟩] →
        (text.drop start).take (stop - start) = a ++ q :: (spec ++ q :: tail) →
        findSubstr (a ++ q :: (spec ++ q :: tail)) spec = some (a.length + 1) →
        lookupAssoc children spec = some rk →
        '$' ∉ rk →
        rewriteContent text children =
          text.take start ++ (a ++ q :: (rk ++ q :: tail)) ++ text.drop stop) ∧
    (resolveAllSources exEntryTwo ("E.sol".toList) exPvTwo 64 1500000 exOracleTwo
      = .ok exDocTwo) ∧
    (resolveAllSources exEntryDollar ("E.sol".toList) [] 64 1500000 exOracleDollar
      = .ok exDocDollar ∧ exDollarMangled ≠ exEntryDollar) :=
  ⟨rewriteContent_single, rfl, rfl, by decide⟩

/-- C6 witness: the exact-quoted-replacement case applied to a concrete
single-import file. -/
theorem c6_rewrite_amended_witness :
    rewriteContent exTextSingle exChildrenSingle = exSingleResult := by
  rw [c6_rewrite_amended.1 exTextSingle exASingle exTailSingle ("p/q.sol".toList)
    exUrlP dquote exChildrenSingle 0 26 rfl rfl rfl rfl (by decide)]
  rfl

/-- C7: a relative specifier resolved with no base context fails with
exactly `NoBaseContext` (and the entry node has no base), and any entry file
containing a relative import makes the whole resolution abort with an error
— no partial document is returned. -/
theorem c7_no_base_context :
    (∀ (raw : List Char) (pv : List (List Char × List Char)),
        relSpecB raw = true →
        resolveImportPath raw none pv = .error (.noBaseContext raw)) ∧
    (∀ (entry key : List Char) (pv : List (List Char × List Char))
        (maxS maxB : Nat) (oracle : List Char → Option (List Char)),
        (∃ imp ∈ extractImportsWithRanges entry, relSpecB imp.spec = true) →
        ∃ e, resolveAllSources entry key pv maxS maxB oracle = .error e) := by
  constructor
  · intro raw pv h
    exact resolve_rel_nobase raw pv h
  · intro entry key pv maxS maxB oracle hex
    have hlook : lookupAssoc (initState entry key).nodes key
        = some { content := entry, baseUrl := none, children := [] } := by
      show (if key = key then _ else _) = _
      rw [if_pos rfl]
    have hbase : ((lookupAssoc (initState entry key).nodes key).getD
        emptyNode).baseUrl = none := by
      rw [hlook]
      rfl
    have hrel : ∃ imp ∈ extractImportsWithRanges
        ((lookupAssoc (initState entry key).nodes key).getD emptyNode).content,
        relSpecB imp.spec = true := by
      rw [hlook]
      exact hex
    have h2 := bfsLoop_rel_error oracle pv maxS maxB (maxS + 2)
      (initState entry key) key [] rfl hbase hrel
    unfold resolveAllSources
    rcases hbg : buildGraph entry key pv maxS maxB oracle with ⟨s2, oe⟩
    unfold buildGraph at hbg
    rw [hbg] at h2
    obtain ⟨e, he⟩ := h2
    simp only [] at he
    subst he
    exact ⟨e, rfl⟩

/-- C7 witness: `./a.sol` with no base fails with `NoBaseContext`, and an
entry containing `./x.sol` makes the whole request fail. -/
theorem c7_no_base_context_witness :
    resolveImportPath ("./a.sol".toList) none []
      = .error (.noBaseContext ("./a.sol".toList)) ∧
    ∃ e, resolveAllSources exEntryRel ("C.sol".toList) [] 64 1500000 oracleNone
      = .error e :=
  ⟨c7_no_base_context.1 ("./a.sol".toList) [] (by decide),
    c7_no_base_context.2 exEntryRel ("C.sol".toList) [] 64 1500000 oracleNone
      ⟨⟨0, 17, ("./x.sol".toList)⟩, by decide, by decide⟩⟩

/-- C8 counterexample: a bare package import whose package IS present in the
mapping, but bound to the empty string, also fails with
`MissingPackageVersion` (the falsy check `if (!ver)`), contradicting the
claim that a present version always expands to a CDN URL. -/
theorem c8_counterexample :
    lookupAssoc [(("p".toList), ([] : List Char))] ("p".toList) = some [] ∧
    parseNpmSpec ("p/x.sol".toList) [(("p".toList), ([] : List Char))]
      = .error (.missingPackageVersion ("p".toList)) :=
  ⟨rfl, rfl⟩

/-- C8 (amended): for a bare package-path import, a package that is absent
from the mapping — or mapped to an empty version string — fails with
`MissingPackageVersion` carrying that package, whose error message names the
package; a non-empty version expands the specifier to
`<cdnBase>/<package>@<version>/<path>`. -/
theorem c8_missing_version_amended (s : List Char)
    (pv : List (List Char × List Char))
    (hn : ("npm:".toList).isPrefixOf s = false) (hb : bareTest s = true) :
    (lookupAssoc pv (barePkg s) = none →
        parseNpmSpec s pv = .error (.missingPackageVersion (barePkg s))) ∧
    (lookupAssoc pv (barePkg s) = some [] →
        parseNpmSpec s pv = .error (.missingPackageVersion (barePkg s))) ∧
    (∀ v, lookupAssoc pv (barePkg s) = some v → v ≠ [] →
        parseNpmSpec s pv = .ok (some (DEFAULT_NPM_CDN ++ '/' ::
          (barePkg s ++ '@' :: (v ++ '/' :: bareRest s))))) ∧
    (∀ pkg, findSubstr (errMessage (.missingPackageVersion pkg)) pkg ≠ none) := by
  refine ⟨?_, ?_, ?_, ?_⟩
  · intro hl
    simp only [parseNpmSpec, hn, Bool.false_eq_true, if_false, hb, if_true, hl]
  · intro hl
    simp only [parseNpmSpec, hn, Bool.false_eq_true, if_false, hb, if_true, hl,
      if_pos rfl]
  · intro v hl hv
    simp only [parseNpmSpec, hn, Bool.false_eq_true, if_false, hb, if_true, hl,
      if_neg hv]
  · intro pkg
    show findSubstr (("Missing version for package \"".toList) ++ pkg ++
        ("\". Provide \"packageVersions\": \x7b \"".toList) ++ pkg ++
        ("\": \"<version>\" \x7d".toList)) pkg ≠ none
    simp only [List.append_assoc]
    exact findSubstr_append_ne_none _ pkg _

/-- C8 witness: `p/x.sol` fails with `MissingPackageVersion p` when `p` is
unpinned, and expands to the CDN URL when pinned to `1.0.0`. -/
theorem c8_missing_version_amended_witness :
    parseNpmSpec ("p/x.sol".toList) [] = .error (.missingPackageVersion ("p".toList)) ∧
    parseNpmSpec ("p/x.sol".toList) [(("p".toList), ("1.0.0".toList))]
      = .ok (some ("https://unpkg.com/p@1.0.0/x.sol".toList)) := by
  refine ⟨(c8_missing_version_amended ("p/x.sol".toList) [] (by decide) (by decide)).1
    rfl, ?_⟩
  have h2 := (c8_missing_version_amended ("p/x.sol".toList)
    [(("p".toList), ("1.0.0".toList))] (by decide) (by decide)).2.2.1
    ("1.0.0".toList) rfl (by decide)
  rw [h2]
  rfl

/-- C9 counterexample: a filename that sanitises to the empty string (here
`@@@`) does not become the entry's canonical key — the falsy `||` fallback
substitutes the generated default name instead of the empty sanitised
filename. -/
theorem c9_counterexample :
    (compileHandler (some ("contract C \x7b\x7d".toList)) (some ("@@@".toList)) []
        oracleNone exDefaultName none none false).resp
      = .okResp true exDefaultName [exDefaultName] ∧
    sanitizeFilename ("@@@".toList) = [] ∧
    exDefaultName ≠ [] :=
  ⟨rfl, rfl, by decide⟩

/-- C9 (amended): on the success response the reported filename is the
`safeName` — the sanitised filename when one was supplied, non-empty, and
sanitises to a non-empty string, and the generated default name when the
filename is absent (or empty / sanitising to empty) — and this canonical key
is among the returned document's keys. -/
theorem c9_entry_key_amended (source filename : Option (List Char))
    (pv : List (List Char × List Char)) (oracle : List Char → Option (List Char))
    (defaultName : List Char) (loadErr compileErr : Option Err) (hasError : Bool)
    (succ : Bool) (fn : List Char) (files : List (List Char))
    (h : (compileHandler source filename pv oracle defaultName loadErr compileErr
        hasError).resp = .okResp succ fn files) :
    fn = safeNameOf filename defaultName ∧ fn ∈ files ∧
    (∀ f, filename = some f → f ≠ [] → sanitizeFilename f ≠ [] →
        fn = sanitizeFilename f) ∧
    (filename = none → fn = defaultName) := by
  obtain ⟨hfn, src, doc, hsrc, hres, hfiles⟩ := compileHandler_ok_shape source
    filename pv oracle defaultName loadErr compileErr hasError succ fn files h
  refine ⟨hfn, ?_, ?_, ?_⟩
  · obtain ⟨hoe, hdoc⟩ := resolveAllSources_ok_shape src
      (safeNameOf filename defaultName) pv MAX_SOURCES MAX_TOTAL_BYTES oracle doc hres
    have hk := (buildGraph_spec src (safeNameOf filename defaultName) pv
      MAX_SOURCES MAX_TOTAL_BYTES oracle).2.2.2.2.1
    have hmem := (hasKey_iff_mem _ _).1 hk
    rw [hfiles, hdoc, hfn, List.map_map]
    exact hmem
  · intro f hfeq hne hsane
    rw [hfn, hfeq]
    show (if f = [] then defaultName
      else if sanitizeFilename f = [] then defaultName else sanitizeFilename f)
        = sanitizeFilename f
    rw [if_neg hne, if_neg hsane]
  · intro hfeq
    rw [hfn, hfeq]
    rfl

/-- C9 witness: the amended key facts at a concrete request with filename
`C.sol`. -/
theorem c9_entry_key_amended_witness :
    ("C.sol".toList) = safeNameOf (some ("C.sol".toList)) exDefaultName ∧
    ("C.sol".toList) ∈ [("C.sol".toList)] ∧
    (∀ f, (some ("C.sol".toList) : Option (List Char)) = some f → f ≠ [] →
        sanitizeFilename f ≠ [] → ("C.sol".toList) = sanitizeFilename f) ∧
    ((some ("C.sol".toList) : Option (List Char)) = none →
        ("C.sol".toList) = exDefaultName) :=
  c9_entry_key_amended (some ("contract C \x7b\x7d".toList)) (some ("C.sol".toList))
    [] oracleNone exDefaultName none none false true ("C.sol".toList)
    [("C.sol".toList)] rfl

end SolCompile
